import Mathlib

/-!
# csvb: binding CSV rows onto struct fields

A shallow embedding of `csvb.go` (package `csvb`) together with the facts proved about it.

* Go maps are association lists (`GoMap`); a map that the program only ranges over is the
  list of its entries in the order the runtime happens to visit them.
* The CSV tokenizer (`encoding/csv`) is not part of the package: it is a parameter
  `tok : Tokenizer σ`, one step of `(*csv.Reader).Read` over an input of type `σ`.
* Go `error` values are the constructors of `Error`.
* `ForEach` runs for a given number of turns of its loop at most (fuel); a visitor is a
  function that passes the state it closes over.
* The destination of `Bind` is a non-nil pointer to a struct, given by the list of its fields
  (`Struct`); the functions of `github.com/oleiade/reflections`, `strconv.ParseInt` and
  `time.ParseInLocation` that `Bind` calls are modelled next to it.
-/

namespace Csvb

/-! ## Errors -/

/-- The `Err` field of a `*strconv.NumError`. -/
inductive NumErr
  | ErrSyntax
  | ErrRange
  deriving DecidableEq, Repr

/-- Go `error` values that the package creates or hands on. -/
inductive Error
  /-- Package variable `ErrNoCustomHeader`. -/
  | ErrNoCustomHeader
  /-- Package variable `ErrNoHeader`. -/
  | ErrNoHeader
  /-- Sentinel `io.EOF`. -/
  | EOF
  /-- Any other error of the tokenizer (`*csv.ParseError`, an error of the byte source). -/
  | csv (msg : String)
  /-- An error made by the `reflections` package. -/
  | reflections (msg : String)
  /-- A `*strconv.NumError` for the input `num`. -/
  | NumError (num : String) (err : NumErr)
  /-- A `*time.ParseError` for the input `value`. -/
  | ParseError (value : String)
  deriving DecidableEq, Repr

deriving instance DecidableEq for Except

/-! ## Go maps -/

/-- A Go map: the list of its entries. The first entry of a key is the one that counts. -/
abbrev GoMap (κ ν : Type) := List (κ × ν)

/-- The comma-ok form `v, ok := m[k]`. -/
def mapIndex {κ ν : Type} [DecidableEq κ] (m : GoMap κ ν) (k : κ) : Option ν :=
  match m with
  | [] => none
  | (k', v) :: rest => if k' = k then some v else mapIndex rest k

/-- The assignment `m[k] = v`: the entry of `k` is replaced. -/
def mapAssign {κ ν : Type} [DecidableEq κ] (m : GoMap κ ν) (k : κ) (v : ν) : GoMap κ ν :=
  (k, v) :: m.filter (fun p => decide (p.1 ≠ k))

/-- The builtin `len(m)`: the number of keys. -/
def mapLen {κ ν : Type} [DecidableEq κ] (m : GoMap κ ν) : Nat :=
  (m.map Prod.fst).dedup.length

/-- The builtin `len(s)` of a string: its length in bytes. -/
def len (s : String) : Nat := s.utf8ByteSize

/-- The plain form `m[k]` on a `map[int]string`: the zero value `""` for a missing key. -/
def metaName (m : GoMap Int String) (i : Int) : String :=
  (mapIndex m i).getD ""

/-! ## Options, tokenizer, Binder, Row -/

/-- A `*time.Location`, known by its name. -/
structure Location where
  name : String
  deriving DecidableEq, Repr

/-- The location `time.UTC`. -/
def UTC : Location := ⟨"UTC"⟩

/-- The struct `Options`. A nil `TimeZone` or `Header` is `none`. -/
structure Options where
  Separator : Int := 0
  NullMarker : String := ""
  TimeZone : Option Location := none
  Header : Option (GoMap Int String) := none
  deriving DecidableEq, Repr

/-- One step of the CSV tokenizer: from the separator and the unread input, the outcome of
`Read` (a record or an error) and the input left. -/
abbrev Tokenizer (σ : Type) := Int → σ → Except Error (List String) × σ

/-- A `*csv.Reader`: its `Comma` field and the unread input. -/
structure Reader (σ : Type) where
  Comma : Int
  r : σ
  deriving DecidableEq, Repr

/-- The constructor `csv.NewReader`: the separator is a comma. -/
def NewReader {σ : Type} (r : σ) : Reader σ := ⟨44, r⟩

/-- The method `(*csv.Reader).Read`. -/
def Reader.Read {σ : Type} (tok : Tokenizer σ) (c : Reader σ) :
    Except Error (List String) × Reader σ :=
  ((tok c.Comma c.r).1, { c with r := (tok c.Comma c.r).2 })

/-- The struct `Binder`. -/
structure Binder (σ : Type) where
  csv : Reader σ
  meta : GoMap Int String
  opts : Options
  deriving DecidableEq, Repr

/-- The struct `Row`. -/
structure Row where
  data : GoMap String String
  opts : Options
  deriving DecidableEq, Repr

/-- The length `len(opts.Header)`; a nil map has length 0. -/
def headerLen (h : Option (GoMap Int String)) : Nat :=
  match h with
  | none => 0
  | some m => mapLen m

/-- The loop `for i, col := range header { meta[i] = col }` of `NewBinder`, from index `i`. -/
def headerLoop : Nat → List String → GoMap Int String → GoMap Int String
  | _, [], m => m
  | i, col :: rest, m => headerLoop (i + 1) rest (mapAssign m (i : Int) col)

/-- The function `NewBinder`. The options it returns inside the Binder are the caller's
options after the defaulting the function performs on them. -/
def NewBinder {σ : Type} (tok : Tokenizer σ) (reader : σ) (opts : Option Options) :
    Except Error (Binder σ) :=
  let csv0 : Reader σ := NewReader reader
  let oc : Options × Reader σ :=
    match opts with
    | none => ({}, csv0)
    | some o =>
      let o1 : Options := if o.Separator = 0 then { o with Separator := 44 } else o
      (o1, { csv0 with Comma := o1.Separator })
  let opts2 : Options :=
    if oc.1.TimeZone = none then { oc.1 with TimeZone := some UTC } else oc.1
  if headerLen opts2.Header = 0 then
    match Reader.Read tok oc.2 with
    | (.error err, _) => .error err
    | (.ok header, csv1) =>
      let m := headerLoop 0 header []
      if mapLen m = 0 then .error Error.ErrNoHeader
      else .ok ⟨csv1, m, opts2⟩
  else
    let m : GoMap Int String := opts2.Header.getD []
    if mapLen m = 0 then .error Error.ErrNoCustomHeader
    else .ok ⟨oc.2, m, opts2⟩

/-- The loop `for i, v := range row` of `ReadRow`, from index `i`, filling `data`. -/
def readRowLoop (m : GoMap Int String) (nullMarker : String) :
    Nat → List String → GoMap String String → GoMap String String
  | _, [], data => data
  | i, v :: rest, data =>
    readRowLoop m nullMarker (i + 1) rest
      (if len v > 0 ∧ v ≠ nullMarker then mapAssign data (metaName m (i : Int)) v else data)

/-- The method `(*Binder).ReadRow`: the Row or the error, and the Binder after the read. -/
def ReadRow {σ : Type} (tok : Tokenizer σ) (b : Binder σ) : Except Error Row × Binder σ :=
  match Reader.Read tok b.csv with
  | (.error err, csv1) => (.error err, { b with csv := csv1 })
  | (.ok row, csv1) =>
    (.ok ⟨readRowLoop b.meta b.opts.NullMarker 0 row [], b.opts⟩, { b with csv := csv1 })

/-! ## The destination of `Bind` and the reflection it goes through -/

/-- The kinds of `reflect.Kind`. -/
inductive Kind
  | Invalid | Bool | Int | Int8 | Int16 | Int32 | Int64
  | Uint | Uint8 | Uint16 | Uint32 | Uint64 | Uintptr
  | Float32 | Float64 | Complex64 | Complex128
  | Array | Chan | Func | Interface | Map | Pointer | Slice
  | String | Struct | UnsafePointer
  deriving DecidableEq, Repr

/-- A Go type: its identity (the qualified name) and its kind. Two types are the same type
when both agree, so `time.Duration` is of kind `Int64` and is not the type `int64`. -/
structure GoType where
  name : String
  kind : Kind
  deriving DecidableEq, Repr

/-- The predeclared type `string`. -/
def stringType : GoType := ⟨"string", Kind.String⟩

/-- The predeclared type `int64`. -/
def int64Type : GoType := ⟨"int64", Kind.Int64⟩

/-- The type `time.Time`, which is `reflect.TypeOf(time.Now())`. -/
def timeType : GoType := ⟨"time.Time", Kind.Struct⟩

/-- A `time.Time` as `time.Date` builds it: the wall-clock reading and the location it is
read in. -/
structure Time where
  year : Nat
  month : Nat
  day : Nat
  hour : Nat
  min : Nat
  sec : Nat
  nsec : Nat
  loc : Location
  deriving DecidableEq, Repr

/-- What a field holds. -/
inductive Data
  | str (s : String)
  | int (i : Int)
  | time (t : Time)
  | other (repr : String)
  deriving DecidableEq, Repr

/-- An `interface{}` value: its dynamic type and what it holds. -/
structure Value where
  typ : GoType
  data : Data
  deriving DecidableEq, Repr

/-- A field of the destination struct: name, declared type, contents, and whether the name
is exported (reflection can set and read out exported fields only). -/
structure Field where
  name : String
  typ : GoType
  data : Data
  exported : Bool
  deriving DecidableEq, Repr

/-- The struct a non-nil destination pointer `x` points to. -/
abbrev Struct := List Field

/-- The lookup `reflect.Value.FieldByName`. -/
def FieldByName (x : Struct) (name : String) : Option Field :=
  x.find? (fun f => decide (f.name = name))

/-- The contents of the field `name`, if the struct has this field. -/
def fieldData (x : Struct) (name : String) : Option Data :=
  (FieldByName x name).map Field.data

/-- The store `structFieldValue.Set(val)` on the field `name`. -/
def setData (x : Struct) (name : String) (d : Data) : Struct :=
  match x with
  | [] => []
  | f :: rest =>
    if f.name = name then { f with data := d } :: rest else f :: setData rest name d

/-- The function `reflections.GetFieldKind` on a pointer to a struct. -/
def GetFieldKind (x : Struct) (name : String) : Except Error Kind :=
  match FieldByName x name with
  | none => .error (Error.reflections ("No such field: " ++ name ++ " in obj"))
  | some f => .ok f.typ.kind

/-- What a call returns, or that it panics. -/
inductive Res (α : Type)
  | ok (a : α)
  | err (e : Error)
  | panic (msg : String)
  deriving DecidableEq, Repr

/-- The function `reflections.GetField` on a pointer to a struct: `field.Interface()` panics
on a field that is not exported. -/
def GetField (x : Struct) (name : String) : Res Value :=
  match FieldByName x name with
  | none => .err (Error.reflections ("No such field: " ++ name ++ " in obj"))
  | some f =>
    if f.exported then .ok ⟨f.typ, f.data⟩
    else .panic "reflect.Value.Interface: cannot return value obtained from unexported field or method"

/-- The function `reflections.SetField` on a pointer to a struct: the field has to exist, to
be settable, and to be of the very type of the value. -/
def SetField (x : Struct) (name : String) (value : Value) : Except Error Struct :=
  match FieldByName x name with
  | none => .error (Error.reflections ("No such field: " ++ name ++ " in obj"))
  | some f =>
    if ¬ f.exported then .error (Error.reflections ("Cannot set " ++ name ++ " field value"))
    else if f.typ ≠ value.typ then
      .error (Error.reflections "Provided value type didn't match obj field type")
    else .ok (setData x name value.data)

/-! ## `strconv.ParseInt(s, 10, 64)` -/

/-- Whether a byte is a decimal digit. -/
def isDigit (c : Char) : Bool := decide ('0'.toNat ≤ c.toNat ∧ c.toNat ≤ '9'.toNat)

/-- The digit `c - '0'`. -/
def digitVal (c : Char) : Nat := c.toNat - '0'.toNat

/-- The largest `uint64`. -/
def maxVal : Nat := 2 ^ 64 - 1

/-- The loop of `strconv.ParseUint(s, 10, 64)` from the accumulator `n`: a byte that is not
a digit is a syntax error, leaving the range of `uint64` a range error. -/
def parseUintLoop : List Char → Nat → Except NumErr Nat
  | [], n => .ok n
  | c :: rest, n =>
    if ¬ isDigit c then .error NumErr.ErrSyntax
    else if n ≥ maxVal / 10 + 1 then .error NumErr.ErrRange
    else
      let n1 := (n * 10 + digitVal c) % 2 ^ 64
      if n1 < n * 10 ∨ n1 > maxVal then .error NumErr.ErrRange
      else parseUintLoop rest n1

/-- The function `strconv.ParseUint(s, 10, 64)`. -/
def ParseUint (s : List Char) : Except NumErr Nat :=
  if s = [] then .error NumErr.ErrSyntax else parseUintLoop s 0

/-- The function `strconv.ParseInt(s, 10, 64)`. -/
def ParseInt (s : String) : Except Error Int :=
  if s = "" then .error (Error.NumError s NumErr.ErrSyntax)
  else
    let nd : Bool × List Char :=
      match s.data with
      | '+' :: t => (false, t)
      | '-' :: t => (true, t)
      | cs => (false, cs)
    match ParseUint nd.2 with
    | .error NumErr.ErrSyntax => .error (Error.NumError s NumErr.ErrSyntax)
    | res =>
      let un : Nat := match res with
        | .ok n => n
        | .error _ => maxVal
      if ¬ nd.1 ∧ un ≥ 2 ^ 63 then .error (Error.NumError s NumErr.ErrRange)
      else if nd.1 ∧ un > 2 ^ 63 then .error (Error.NumError s NumErr.ErrRange)
      else .ok (if nd.1 then -(un : Int) else (un : Int))

/-! ## `time.ParseInLocation("2006-01-02 15:04:05", value, loc)`

The layout splits into the chunks `2006`, `-01`, `-02`, ` 15`, `:04`, `:05`. A value is
handled byte by byte; a byte of a character outside ASCII never is a digit, a separator or a
space, so the characters of the value stand for its bytes. -/

/-- The helper `getnum` of package `time`: one or two digits, exactly two when `fixed`. -/
def getnum (s : List Char) (fixed : Bool) : Option (Nat × List Char) :=
  match s with
  | [] => none
  | c0 :: t =>
    if ¬ isDigit c0 then none
    else
      match t with
      | [] => if fixed then none else some (digitVal c0, t)
      | c1 :: t1 =>
        if ¬ isDigit c1 then (if fixed then none else some (digitVal c0, t))
        else some (digitVal c0 * 10 + digitVal c1, t1)

/-- The chunk `2006`: four digits. -/
def getYear (s : List Char) : Option (Nat × List Char) :=
  match s with
  | a :: b :: c :: d :: t =>
    if isDigit a ∧ isDigit b ∧ isDigit c ∧ isDigit d then
      some (digitVal a * 1000 + digitVal b * 100 + digitVal c * 10 + digitVal d, t)
    else none
  | _ => none

/-- The helper `skip` of package `time` for a one-byte prefix that is not a space. -/
def skipChar (p : Char) (s : List Char) : Option (List Char) :=
  match s with
  | [] => none
  | c :: t => if c = p then some t else none

/-- The helper `skip` of package `time` for the prefix `" "`: a value that starts with
another byte is refused, and all leading spaces of the value are cut. -/
def skipSpace (s : List Char) : Option (List Char) :=
  match s with
  | [] => some []
  | c :: _ => if c ≠ ' ' then none else some (s.dropWhile (fun c => decide (c = ' ')))

/-- The value of a run of digits. -/
def digitsVal (ds : List Char) : Nat :=
  ds.foldl (fun n c => n * 10 + digitVal c) 0

/-- The fractional second that `Parse` accepts after the seconds although the layout has
none: a comma or a period followed by digits, of which nine count. The nanoseconds and the
rest of the value. -/
def fractional (s : List Char) : Nat × List Char :=
  match s with
  | p :: d :: t =>
    if (p = '.' ∨ p = ',') ∧ isDigit d then
      let ds := (d :: t).takeWhile isDigit
      (digitsVal (ds.take 9) * 10 ^ (9 - (ds.take 9).length), (d :: t).dropWhile isDigit)
    else (0, s)
  | _ => (0, s)

/-- The helper `isLeap` of package `time`. -/
def isLeap (year : Nat) : Bool :=
  decide (year % 4 = 0 ∧ (year % 100 ≠ 0 ∨ year % 400 = 0))

/-- The helper `daysIn` of package `time`. -/
def daysIn (m year : Nat) : Nat :=
  if m = 2 then (if isLeap year then 29 else 28)
  else 30 + (m + m / 8) % 2

/-- The fields `Parse` reads for the layout `2006-01-02 15:04:05`, with its range checks;
`none` is a `*time.ParseError`. -/
def parseLayout (value : List Char) (loc : Location) : Option Time :=
  match getYear value with
  | none => none
  | some (year, v1) =>
  match skipChar '-' v1 with
  | none => none
  | some v2 =>
  match getnum v2 true with
  | none => none
  | some (month, v3) =>
  if month ≤ 0 ∨ 12 < month then none else
  match skipChar '-' v3 with
  | none => none
  | some v4 =>
  match getnum v4 true with
  | none => none
  | some (day, v5) =>
  match skipSpace v5 with
  | none => none
  | some v6 =>
  match getnum v6 false with
  | none => none
  | some (hour, v7) =>
  if 24 ≤ hour then none else
  match skipChar ':' v7 with
  | none => none
  | some v8 =>
  match getnum v8 true with
  | none => none
  | some (min, v9) =>
  if 60 ≤ min then none else
  match skipChar ':' v9 with
  | none => none
  | some v10 =>
  match getnum v10 true with
  | none => none
  | some (sec, v11) =>
  if 60 ≤ sec then none else
  if (fractional v11).2 ≠ [] then none else
  if day < 1 ∨ day > daysIn month year then none else
  some ⟨year, month, day, hour, min, sec, (fractional v11).1, loc⟩

/-- The function `time.ParseInLocation("2006-01-02 15:04:05", value, loc)`; a value that
parses makes `time.Date` panic when the location is nil. -/
def ParseInLocation (value : String) (loc : Option Location) : Res Time :=
  match loc with
  | some l =>
    match parseLayout value.data l with
    | none => .err (Error.ParseError value)
    | some t => .ok t
  | none =>
    match parseLayout value.data UTC with
    | none => .err (Error.ParseError value)
    | some _ => .panic "time: missing Location in call to Date"

/-! ## `Row.Bind` -/

/-- How a call of `Bind` ends: `nil`, an error, or a panic. -/
inductive Ret
  | nil
  | err (e : Error)
  | panic (msg : String)
  deriving DecidableEq, Repr

/-- A call `reflections.SetField(x, dest, v)` whose error is dropped, as `Bind` makes it. -/
def setFieldDropErr (x : Struct) (dest : String) (v : Value) : Struct :=
  match SetField x dest v with
  | .ok x1 => x1
  | .error _ => x

/-- One turn of the loop of `Bind`, for the pair `src, dest` of the strategy: the
destination after it and how it ends (`nil`: the loop goes on). -/
def bindPair (r : Row) (x : Struct) (src dest : String) : Struct × Ret :=
  match mapIndex r.data src with
  | none => (x, Ret.nil)
  | some data =>
    match GetFieldKind x dest with
    | .error err => (x, Ret.err err)
    | .ok k =>
      match k with
      | Kind.String => (setFieldDropErr x dest ⟨stringType, Data.str data⟩, Ret.nil)
      | Kind.Int64 =>
        match ParseInt data with
        | .error err => (x, Ret.err err)
        | .ok i => (setFieldDropErr x dest ⟨int64Type, Data.int i⟩, Ret.nil)
      | Kind.Struct =>
        match GetField x dest with
        | .err err => (x, Ret.err err)
        | .panic msg => (x, Ret.panic msg)
        | .ok value =>
          if value.typ = timeType then
            match ParseInLocation data r.opts.TimeZone with
            | .err err => (x, Ret.err err)
            | .panic msg => (x, Ret.panic msg)
            | .ok date => (setFieldDropErr x dest ⟨timeType, Data.time date⟩, Ret.nil)
          else (x, Ret.nil)
      | _ => (x, Ret.nil)

/-- The method `(*Row).Bind` on the destination `x`, the pairs of `strategy` in the order
the `range` loop visits them: the destination afterwards and what the call returns. -/
def Bind (r : Row) (x : Struct) : List (String × String) → Struct × Ret
  | [] => (x, Ret.nil)
  | (src, dest) :: rest =>
    match bindPair r x src dest with
    | (x1, Ret.nil) => Bind r x1 rest
    | out => out

/-- A tokenizer over an input that is already cut into records: each `Read` hands out the
next record, and `io.EOF` once none is left. -/
def listTok : Tokenizer (List (List String)) := fun _ s =>
  match s with
  | [] => (.error Error.EOF, [])
  | rec :: rest => (.ok rec, rest)

/-- The value a Row holds under the name `k` after the columns `rest`, numbered from `i`:
that of the last column of this name whose value is neither empty nor the null-marker. -/
def keptValue (m : GoMap Int String) (nullMarker : String) :
    Nat → List String → String → Option String
  | _, [], _ => none
  | i, v :: rest, k =>
    match keptValue m nullMarker (i + 1) rest k with
    | some w => some w
    | none => if v ≠ "" ∧ v ≠ nullMarker ∧ metaName m (i : Int) = k then some v else none

/-- What claim C1 asks of the data of a Row built from `record`: a column whose value is
empty or the null-marker is absent, every other column is there under its name with its raw
value. -/
def rowKeepsColumns (m : GoMap Int String) (nullMarker : String) (record : List String)
    (data : GoMap String String) : Prop :=
  ∀ i (h : i < record.length),
    mapIndex data (metaName m (i : Int)) =
      if record[i] = "" ∨ record[i] = nullMarker then none else some record[i]

/-- The Binder of the witness of C1: columns `id`, `name`, `note`, null-marker `NULL`, one
record left to read. -/
def binderC1 : Binder (List (List String)) :=
  ⟨⟨44, [["7", "NULL", ""]]⟩, [(0, "id"), (1, "name"), (2, "note")],
    { NullMarker := "NULL" }⟩

/-- The Binder of the counterexample of C1: two columns of the same name `x`. -/
def binderDup : Binder (List (List String)) :=
  ⟨⟨44, [["a", "b"]]⟩, [(0, "x"), (1, "x")], {}⟩

/-- The separator the tokenizer of `NewBinder` works with: the comma of `csv.NewReader` for
nil options and for options whose separator is unset, the `Separator` of the options
otherwise. -/
def separatorOf (opts : Option Options) : Int :=
  match opts with
  | none => 44
  | some o => if o.Separator = 0 then 44 else o.Separator

/-- The field `Header` of the options handed to `NewBinder`; nil for nil options. -/
def headerOf (opts : Option Options) : Option (GoMap Int String) :=
  match opts with
  | none => none
  | some o => o.Header

/-- The input of the examples: the records `id, name` and `7, alice`. -/
def twoRecords : List (List String) := [["id", "name"], ["7", "alice"]]

/-- The Row that `ReadRow` builds from a record under the metadata and options of `b`. -/
def rowOf {σ : Type} (b : Binder σ) (record : List String) : Row :=
  ⟨readRowLoop b.meta b.opts.NullMarker 0 record [], b.opts⟩

/-- The declared type of the field `name` and whether it is exported, if the struct has this
field. -/
def fieldSig (x : Struct) (name : String) : Option (GoType × Bool) :=
  (FieldByName x name).map (fun f => (f.typ, f.exported))

/-- The zero `time.Time`. -/
def zeroTime : Time := ⟨1, 1, 1, 0, 0, 0, 0, UTC⟩

/-- A destination for the examples: the struct
`ID string; Name string; Age int64; JoinedAt time.Time`, all fields at their zero value. -/
def person : Struct :=
  [⟨"ID", stringType, Data.str "", true⟩, ⟨"Name", stringType, Data.str "", true⟩,
   ⟨"Age", int64Type, Data.int 0, true⟩, ⟨"JoinedAt", timeType, Data.time zeroTime, true⟩]

/-- Options as NewBinder leaves them when none are given but the time zone. -/
def utcOptions : Options := { TimeZone := some UTC }

/-- A base-10 signed integer as text: an optional sign and at least one digit. -/
def isBase10Int (s : String) : Bool :=
  match s.data with
  | '+' :: t => !t.isEmpty && t.all isDigit
  | '-' :: t => !t.isEmpty && t.all isDigit
  | cs => !cs.isEmpty && cs.all isDigit

/-- The destination of the counterexample of C3: the struct `Timeout time.Duration`, whose
field is of kind Int64. -/
def withDuration : Struct :=
  [⟨"Timeout", ⟨"time.Duration", Kind.Int64⟩, Data.int 0, true⟩]

/-- The Binder of the examples of C2: metadata `id`, `name`, the record `7, alice` left to
read. -/
def binderIdName : Binder (List (List String)) :=
  ⟨⟨44, [["7", "alice"]]⟩, [(0, "id"), (1, "name")], utcOptions⟩

/-- The destination of the counterexample of C2: the struct `ID Code; Name string` with
`type Code string`, so both fields are of kind String. -/
def withCode : Struct :=
  [⟨"ID", ⟨"main.Code", Kind.String⟩, Data.str "", true⟩,
   ⟨"Name", stringType, Data.str "", true⟩]

/-- The days of a month of the Gregorian calendar. -/
def daysInMonth (year month : Nat) : Nat :=
  match month with
  | 1 => 31
  | 2 => if year % 4 = 0 ∧ (year % 100 ≠ 0 ∨ year % 400 = 0) then 29 else 28
  | 3 => 31
  | 4 => 30
  | 5 => 31
  | 6 => 30
  | 7 => 31
  | 8 => 31
  | 9 => 30
  | 10 => 31
  | 11 => 30
  | 12 => 31
  | _ => 0

/-- Whether the fields of a time are a valid calendar date and a valid time of day on the
24-hour clock. -/
def validFields (t : Time) : Prop :=
  1 ≤ t.month ∧ t.month ≤ 12 ∧ 1 ≤ t.day ∧ t.day ≤ daysInMonth t.year t.month ∧
    t.hour < 24 ∧ t.min < 60 ∧ t.sec < 60

instance (t : Time) : Decidable (validFields t) := by
  unfold validFields
  infer_instance

/-- The layout `YYYY-MM-DD hh:mm:ss` read strictly: nineteen bytes, digits at the places of
the letters, the separators as written, a valid date and time. The time it denotes in `loc`,
or `none` when the value does not match. -/
def strictLayout (cs : List Char) (loc : Location) : Option Time :=
  match cs with
  | [y1, y2, y3, y4, p1, m1, m2, p2, d1, d2, p3, h1, h2, p4, n1, n2, p5, s1, s2] =>
    if p1 = '-' ∧ p2 = '-' ∧ p3 = ' ' ∧ p4 = ':' ∧ p5 = ':' ∧
        [y1, y2, y3, y4, m1, m2, d1, d2, h1, h2, n1, n2, s1, s2].all isDigit = true ∧
        validFields ⟨digitsVal [y1, y2, y3, y4], digitsVal [m1, m2], digitsVal [d1, d2],
          digitsVal [h1, h2], digitsVal [n1, n2], digitsVal [s1, s2], 0, loc⟩ then
      some ⟨digitsVal [y1, y2, y3, y4], digitsVal [m1, m2], digitsVal [d1, d2],
        digitsVal [h1, h2], digitsVal [n1, n2], digitsVal [s1, s2], 0, loc⟩
    else none
  | _ => none

/-- The nanoseconds of a fractional second `frac` (its separator and its digits): the first
nine digits count. -/
def fracNanos (frac : List Char) : Nat :=
  match frac with
  | [] => 0
  | _ :: ds => digitsVal (ds.take 9) * 10 ^ (9 - (ds.take 9).length)

/-- The layout `YYYY-MM-DD hh:mm:ss` read the relaxed way: the date, one space or more, an
hour of one or two digits, minutes and seconds, and possibly a fractional second, which is a
period or a comma and at least one digit; a valid date and time. `t` is the time it denotes
in `loc`. -/
def RelaxedLayout (cs : List Char) (loc : Location) (t : Time) : Prop :=
  ∃ (y1 y2 y3 y4 m1 m2 d1 d2 n1 n2 s1 s2 : Char) (k : Nat) (hour frac : List Char),
    cs = [y1, y2, y3, y4, '-', m1, m2, '-', d1, d2] ++ List.replicate (k + 1) ' ' ++ hour ++
      [':', n1, n2, ':', s1, s2] ++ frac ∧
    (∀ c ∈ [y1, y2, y3, y4, m1, m2, d1, d2, n1, n2, s1, s2], isDigit c = true) ∧
    (hour.length = 1 ∨ hour.length = 2) ∧ (∀ c ∈ hour, isDigit c = true) ∧
    (frac = [] ∨ ∃ p ds, frac = p :: ds ∧ (p = '.' ∨ p = ',') ∧ ds ≠ [] ∧
      ∀ c ∈ ds, isDigit c = true) ∧
    t = ⟨digitsVal [y1, y2, y3, y4], digitsVal [m1, m2], digitsVal [d1, d2], digitsVal hour,
      digitsVal [n1, n2], digitsVal [s1, s2], fracNanos frac, loc⟩ ∧
    validFields t

/-- The Row of the examples of C6, time zone UTC. -/
def joinedRow (v : String) : Row := ⟨[("joined", v)], utcOptions⟩

/-! ## `Binder.ForEach` -/

/-- A visitor `func(Row) (bool, error)`. It is a Go closure, so a call may change what it
closes over: from the state `ν` before the call and the Row, the returned `hasNext` and error
(nil is `none`) and the state after the call. -/
abbrev Visitor (ν : Type) := ν → Row → (Bool × Option Error) × ν

/-- The method `(*Binder).ForEach`, run for `fuel` turns of its `for` loop at most: what it
returns (nil is `none`), the Binder and the state of the visitor when it returns; `none` when
the loop is still running after `fuel` turns. -/
def ForEach {σ ν : Type} (tok : Tokenizer σ) (f : Visitor ν) :
    Nat → Binder σ → ν → Option (Option Error × Binder σ × ν)
  | 0, _, _ => none
  | fuel + 1, b, s =>
    match ReadRow tok b with
    | (.error err, b1) =>
      if err = Error.EOF then some (none, b1, s) else some (some err, b1, s)
    | (.ok row, b1) =>
      match f s row with
      | ((_, some err), s1) => some (some err, b1, s1)
      | ((hasNext, none), s1) =>
        if ¬ hasNext then some (none, b1, s1) else ForEach tok f fuel b1 s1

/-- The input `s` hands out the records `recs`, one per read with separator `c`, and is `s1`
after them. -/
def readsRecords {σ : Type} (tok : Tokenizer σ) (c : Int) : List (List String) → σ → σ → Prop
  | [], s, s1 => s = s1
  | rec :: rest, s, s1 => (tok c s).1 = .ok rec ∧ readsRecords tok c rest (tok c s).2 s1

/-- The state of a visitor after it was called on the rows `rows`, in this order. -/
def visited {ν : Type} (f : Visitor ν) (s : ν) (rows : List Row) : ν :=
  rows.foldl (fun s row => (f s row).2) s

/-- The visitor goes on (`true, nil`) at each of its calls on the rows `rows`, made in this
order from the state `s`. -/
def goesOn {ν : Type} (f : Visitor ν) : ν → List Row → Prop
  | _, [] => True
  | s, row :: rest => (f s row).1 = (true, none) ∧ goesOn f (f s row).2 rest

/-- The Binder `b` with the input `s` left to read. -/
def withInput {σ : Type} (b : Binder σ) (s : σ) : Binder σ :=
  { b with csv := ⟨b.csv.Comma, s⟩ }

/-- A visitor that keeps the rows it is called on and always goes on. -/
def recorder : Visitor (List Row) := fun s row => ((true, none), s ++ [row])

/-- A visitor that counts its calls and stops, with `false, nil`, at its second call. -/
def stopAtSecond : Visitor Nat := fun s _ => ((decide (s = 0), none), s + 1)

/-- The options of the counterexample of C13: the explicit header `0: id`. -/
def idHeaderOptions : Options := { Header := some [(0, "id")] }

/-- The Binder that NewBinder returns for `idHeaderOptions` over the one record `7, x`. -/
def binderIdOnly : Binder (List (List String)) :=
  ⟨⟨44, [["7", "x"]]⟩, [(0, "id")],
    { Separator := 44, NullMarker := "", TimeZone := some UTC, Header := some [(0, "id")] }⟩

/-- Options that set the null-marker `NULL` and nothing else. -/
def nullOptions : Options := { NullMarker := "NULL" }

/-- The Binder that NewBinder returns for `nullOptions` over `twoRecords`. -/
def binderNull : Binder (List (List String)) :=
  ⟨⟨44, [["7", "alice"]]⟩, [(1, "name"), (0, "id")],
    { Separator := 44, NullMarker := "NULL", TimeZone := some UTC, Header := none }⟩

/-- What the turn of `Bind` for a pair with source `src` writes into the destination field,
by the Row and the signature `sig` of that field (`none`: the struct has no such field):
nothing unless the source is in the Row and the field is exported and of type `string`,
`int64` or `time.Time`, and then the value as converted, if the conversion succeeds. -/
def pairWrite (r : Row) (sig : Option (GoType × Bool)) (src : String) : Option Data :=
  match mapIndex r.data src, sig with
  | some v, some (t, true) =>
    if t = stringType then some (Data.str v)
    else if t = int64Type then
      match ParseInt v with
      | .ok i => some (Data.int i)
      | .error _ => none
    else if t = timeType then
      match ParseInLocation v r.opts.TimeZone with
      | .ok date => some (Data.time date)
      | _ => none
    else none
  | _, _ => none

/-- The destination after the field `dest` was written with `w`, if `w` is a value. -/
def applyWrite (x : Struct) (dest : String) (w : Option Data) : Struct :=
  match w with
  | some d => setData x dest d
  | none => x

/-- The Row of the counterexample of C14: a name, and an age that is no number. -/
def aliceRow : Row := ⟨[("name", "alice"), ("age", "abc")], utcOptions⟩

/-- The number that a base-10 signed integer text denotes. -/
def base10Value (s : String) : Int :=
  match s.data with
  | '+' :: t => (digitsVal t : Int)
  | '-' :: t => -(digitsVal t : Int)
  | cs => (digitsVal cs : Int)

/-- A base-10 text of a 64-bit signed integer: an optional sign, at least one digit, and a
value from `-2^63` to `2^63 - 1`. -/
def isInt64Text (s : String) : Prop :=
  isBase10Int s = true ∧ -2 ^ 63 ≤ base10Value s ∧ base10Value s < 2 ^ 63

instance (s : String) : Decidable (isInt64Text s) := by
  unfold isInt64Text
  infer_instance

/-- How the turn of `Bind` for the pair `src, dest` ends, by the Row and the signature `sig`
of the destination field (`none`: the struct has no such field). -/
def pairRet (r : Row) (sig : Option (GoType × Bool)) (src dest : String) : Ret :=
  match mapIndex r.data src with
  | none => Ret.nil
  | some v =>
    match sig with
    | none => Ret.err (Error.reflections ("No such field: " ++ dest ++ " in obj"))
    | some (t, e) =>
      if t.kind = Kind.String then Ret.nil
      else if t.kind = Kind.Int64 then
        match ParseInt v with
        | .error err => Ret.err err
        | .ok _ => Ret.nil
      else if t.kind = Kind.Struct then
        if e = false then
          Ret.panic
            "reflect.Value.Interface: cannot return value obtained from unexported field or method"
        else if t = timeType then
          match ParseInLocation v r.opts.TimeZone with
          | .err err => Ret.err err
          | .panic msg => Ret.panic msg
          | .ok _ => Ret.nil
        else Ret.nil
      else Ret.nil

/-- What it takes for the turn of the pair `src, dest` to go through, when the source is in
the Row with the value `v`: the destination has the field `dest`; if the field is of kind
Int64, `v` is the text of a 64-bit signed integer; if it is of kind Struct, it is exported,
and if its type is `time.Time`, the time zone of the Row is set and `v` is of the relaxed
layout. -/
def pairOK (r : Row) (x : Struct) (src dest : String) : Prop :=
  ∀ v, mapIndex r.data src = some v →
    ∃ t e, fieldSig x dest = some (t, e) ∧
      (t.kind = Kind.Int64 → isInt64Text v) ∧
      (t.kind = Kind.Struct → e = true ∧
        (t = timeType →
          ∃ loc tm, r.opts.TimeZone = some loc ∧ RelaxedLayout v.data loc tm))

/-- The destination of the counterexamples of C15 and C16: the struct
`when time.Time; cfg settings`, whose fields are not exported; `settings` is a struct type. -/
def hidden : Struct :=
  [⟨"when", timeType, Data.time zeroTime, false⟩,
   ⟨"cfg", ⟨"main.settings", Kind.Struct⟩, Data.other "zero", false⟩]

/-- A destination with fields of kinds that `Bind` does not handle: the struct
`Count int; Ratio float64; Cfg Settings`, with `Settings` a struct type. -/
def others : Struct :=
  [⟨"Count", ⟨"int", Kind.Int⟩, Data.int 0, true⟩,
   ⟨"Ratio", ⟨"float64", Kind.Float64⟩, Data.other "0", true⟩,
   ⟨"Cfg", ⟨"main.Settings", Kind.Struct⟩, Data.other "zero", true⟩]

/-! # Theorems -/

theorem len_pos_iff (s : String) : 0 < len s ↔ s ≠ "" := by
  cases s with
  | mk cs =>
    cases cs with
    | nil => simp [len, String.utf8ByteSize, String.utf8ByteSize.go]
    | cons c t =>
      have hc : 0 < c.utf8Size := Char.utf8Size_pos c
      have : String.mk (c :: t) ≠ "" := by
        intro h
        have := congrArg String.data h
        simp at this
      simp [len, String.utf8ByteSize, String.utf8ByteSize.go, this]
      omega

theorem mapIndex_filter_ne {κ ν : Type} [DecidableEq κ] (m : GoMap κ ν) (k k' : κ) :
    mapIndex (m.filter (fun p => decide (p.1 ≠ k))) k' =
      if k' = k then none else mapIndex m k' := by
  induction m with
  | nil => simp [mapIndex]
  | cons p rest ih =>
    obtain ⟨a, b⟩ := p
    rw [List.filter_cons]
    by_cases hak : a = k
    · subst hak
      by_cases hk : k' = a
      · subst hk
        simpa [mapIndex] using ih
      · have : ¬ a = k' := fun h => hk h.symm
        simpa [mapIndex, hk, this] using ih
    · by_cases hk : k' = k
      · subst hk
        simpa [hak, mapIndex] using ih
      · by_cases hak' : a = k'
        · simp [hak, mapIndex, hak', hk]
        · simpa [hak, mapIndex, hak', hk] using ih

theorem mapIndex_mapAssign {κ ν : Type} [DecidableEq κ] (m : GoMap κ ν) (k k' : κ) (v : ν) :
    mapIndex (mapAssign m k v) k' = if k' = k then some v else mapIndex m k' := by
  unfold mapAssign
  by_cases hk : k' = k
  · subst hk; simp [mapIndex]
  · have : ¬ k = k' := fun h => hk h.symm
    rw [mapIndex, if_neg this, mapIndex_filter_ne, if_neg hk, if_neg hk]

theorem mapLen_eq_zero {κ ν : Type} [DecidableEq κ] (m : GoMap κ ν) :
    mapLen m = 0 ↔ m = [] := by
  cases m with
  | nil => simp [mapLen]
  | cons p rest =>
    simp only [mapLen, List.length_eq_zero, reduceCtorEq, iff_false]
    intro h
    have : p.1 ∈ (List.map Prod.fst (p :: rest)).dedup := by
      rw [List.mem_dedup]; simp
    rw [h] at this
    simp at this

theorem readRowLoop_index (m : GoMap Int String) (nm : String) (k : String) :
    ∀ (rest : List String) (i : Nat) (data : GoMap String String),
      mapIndex (readRowLoop m nm i rest data) k =
        match keptValue m nm i rest k with
        | some w => some w
        | none => mapIndex data k := by
  intro rest
  induction rest with
  | nil => intro i data; simp [readRowLoop, keptValue]
  | cons v rest ih =>
    intro i data
    rw [readRowLoop, ih, keptValue]
    cases hk : keptValue m nm (i + 1) rest k with
    | some w => simp
    | none =>
      simp only [len_pos_iff, gt_iff_lt]
      by_cases hv : v ≠ "" ∧ v ≠ nm
      · rw [if_pos hv, mapIndex_mapAssign]
        by_cases hn : metaName m (i : Int) = k
        · have : k = metaName m (i : Int) := hn.symm
          simp [hv.1, hv.2, hn]
        · have : ¬ k = metaName m (i : Int) := fun h => hn h.symm
          simp [hn, this]
      · rw [if_neg hv]
        have : ¬ (v ≠ "" ∧ v ≠ nm ∧ metaName m (i : Int) = k) := fun h => hv ⟨h.1, h.2.1⟩
        rw [if_neg this]

theorem keptValue_some (m : GoMap Int String) (nm : String) (k w : String) :
    ∀ (rest : List String) (i : Nat), keptValue m nm i rest k = some w →
      ∃ j, ∃ h : j < rest.length,
        metaName m ((i + j : Nat) : Int) = k ∧ rest[j] = w ∧ w ≠ "" ∧ w ≠ nm := by
  intro rest
  induction rest with
  | nil => intro i h; simp [keptValue] at h
  | cons v rest ih =>
    intro i h
    rw [keptValue] at h
    cases hk : keptValue m nm (i + 1) rest k with
    | some w1 =>
      rw [hk] at h
      simp only [Option.some.injEq] at h
      subst h
      obtain ⟨j, hj, h1, h2, h3⟩ := ih (i + 1) hk
      refine ⟨j + 1, by simp; omega, ?_, by simpa using h2, h3⟩
      have : i + (j + 1) = i + 1 + j := by omega
      rw [this]; exact h1
    | none =>
      rw [hk] at h
      simp only at h
      split at h
      · rename_i hc
        simp only [Option.some.injEq] at h
        subst h
        exact ⟨0, by simp, by simpa using hc.2.2, by simp, hc.1, hc.2.1⟩
      · simp at h

theorem keptValue_none (m : GoMap Int String) (nm : String) (k : String) :
    ∀ (rest : List String) (i : Nat), keptValue m nm i rest k = none →
      ∀ j (h : j < rest.length), metaName m ((i + j : Nat) : Int) = k →
        rest[j] = "" ∨ rest[j] = nm := by
  intro rest
  induction rest with
  | nil => intro i _ j h; simp at h
  | cons v rest ih =>
    intro i h j hj hname
    rw [keptValue] at h
    cases hk : keptValue m nm (i + 1) rest k with
    | some w1 => rw [hk] at h; simp at h
    | none =>
      rw [hk] at h
      simp only at h
      cases j with
      | zero =>
        simp only [List.getElem_cons_zero]
        by_contra hcon
        push_neg at hcon
        have hname0 : metaName m (i : Int) = k := by simpa using hname
        rw [if_pos ⟨hcon.1, hcon.2, hname0⟩] at h
        simp at h
      | succ j =>
        simp only [List.getElem_cons_succ]
        have hj1 : j < rest.length := by simpa using hj
        have : i + (j + 1) = i + 1 + j := by omega
        rw [this] at hname
        exact ih (i + 1) hk j hj1 hname

theorem readRowLoop_keeps (m : GoMap Int String) (nm : String) (record : List String)
    (hdistinct : ∀ i j, i < record.length → j < record.length →
      metaName m (i : Int) = metaName m (j : Int) → i = j) :
    rowKeepsColumns m nm record (readRowLoop m nm 0 record []) := by
  intro i hi
  rw [readRowLoop_index]
  cases hk : keptValue m nm 0 record (metaName m (i : Int)) with
  | some w =>
    obtain ⟨j, hj, h1, h2, h3, h4⟩ := keptValue_some _ _ _ _ _ _ hk
    have hji : j = i := hdistinct j i hj hi (by simpa using h1)
    subst hji
    simp only
    rw [h2, if_neg (by simp [h3, h4])]
  | none =>
    have := keptValue_none _ _ _ _ _ hk i hi (by simp)
    simp only [mapIndex]
    rw [if_pos this]

theorem readRowLoop_no_other (m : GoMap Int String) (nm : String) (record : List String)
    (k : String) (hk : ∀ i, i < record.length → metaName m (i : Int) ≠ k) :
    mapIndex (readRowLoop m nm 0 record []) k = none := by
  rw [readRowLoop_index]
  cases hv : keptValue m nm 0 record k with
  | some w =>
    obtain ⟨j, hj, h1, _⟩ := keptValue_some _ _ _ _ _ _ hv
    exact absurd (by simpa using h1) (hk j hj)
  | none => simp [mapIndex]

theorem ReadRow_ok {σ : Type} (tok : Tokenizer σ) (b : Binder σ) (record : List String)
    (hread : (tok b.csv.Comma b.csv.r).1 = .ok record) :
    (ReadRow tok b).1 = .ok ⟨readRowLoop b.meta b.opts.NullMarker 0 record [], b.opts⟩ := by
  simp only [ReadRow, Reader.Read]
  rw [hread]

/-- C1 (amended): when the names the metadata gives to the columns of the record are
pairwise distinct, ReadRow succeeds with a Row that omits exactly the columns whose raw value
is empty or equal to the null-marker, holds every other column under its metadata name with
its exact raw value, and holds nothing under any other name. -/
theorem ReadRow_keeps_columns {σ : Type} (tok : Tokenizer σ) (b : Binder σ)
    (record : List String)
    (hread : (tok b.csv.Comma b.csv.r).1 = .ok record)
    (hdistinct : ∀ i j, i < record.length → j < record.length →
      metaName b.meta (i : Int) = metaName b.meta (j : Int) → i = j) :
    ∃ row, (ReadRow tok b).1 = .ok row ∧ row.opts = b.opts ∧
      rowKeepsColumns b.meta b.opts.NullMarker record row.data ∧
      ∀ k, (∀ i, i < record.length → metaName b.meta (i : Int) ≠ k) →
        mapIndex row.data k = none :=
  ⟨_, ReadRow_ok tok b record hread, rfl,
    readRowLoop_keeps b.meta b.opts.NullMarker record hdistinct,
    fun k hk => readRowLoop_no_other b.meta b.opts.NullMarker record k hk⟩

theorem ReadRow_keeps_columns_witness :
    ∃ row, (ReadRow listTok binderC1).1 = .ok row ∧ row.opts = binderC1.opts ∧
      rowKeepsColumns binderC1.meta binderC1.opts.NullMarker ["7", "NULL", ""] row.data ∧
      ∀ k, (∀ i, i < ["7", "NULL", ""].length → metaName binderC1.meta (i : Int) ≠ k) →
        mapIndex row.data k = none :=
  ReadRow_keeps_columns listTok binderC1 ["7", "NULL", ""] (by decide) (by
    intro i j hi hj
    have hi3 : i < 3 := hi
    have hj3 : j < 3 := hj
    interval_cases i <;> interval_cases j <;> decide)

/-- C1 fails as stated: with the name `x` given to both columns, the record `a, b` yields
the Row `x: b`, in which column 0, whose value `a` is neither empty nor the null-marker,
does not appear with its value. -/
theorem ReadRow_duplicate_names_counterexample :
    (ReadRow listTok binderDup).1 = .ok ⟨[("x", "b")], {}⟩ ∧
      ¬ rowKeepsColumns binderDup.meta binderDup.opts.NullMarker ["a", "b"] [("x", "b")] := by
  refine ⟨by decide, ?_⟩
  intro h
  have := h 0 (by decide)
  revert this
  decide

theorem headerLoop_index (k : Int) :
    ∀ (header : List String) (i : Nat) (m : GoMap Int String),
      mapIndex (headerLoop i header m) k =
        if (i : Int) ≤ k ∧ k < (i : Int) + header.length then header[(k - i).toNat]?
        else mapIndex m k := by
  intro header
  induction header with
  | nil => intro i m; simp only [headerLoop, List.length_nil]; rw [if_neg (by omega)]
  | cons col rest ih =>
    intro i m
    rw [headerLoop, ih, mapIndex_mapAssign]
    simp only [List.length_cons, Nat.cast_add, Nat.cast_one]
    by_cases h1 : ((i : Int) + 1 ≤ k ∧ k < (i : Int) + 1 + rest.length)
    · rw [if_pos h1, if_pos (by omega)]
      have : (k - (i : Int)).toNat = (k - ((i : Int) + 1)).toNat + 1 := by omega
      rw [this, List.getElem?_cons_succ]
    · rw [if_neg h1]
      by_cases h2 : k = (i : Int)
      · subst h2
        rw [if_pos rfl, if_pos (by omega)]
        simp
      · rw [if_neg h2, if_neg (by omega)]

theorem headerLoop_ne_nil :
    ∀ (header : List String) (i : Nat) (m : GoMap Int String),
      header ≠ [] ∨ m ≠ [] → headerLoop i header m ≠ [] := by
  intro header
  induction header with
  | nil => intro i m h; simpa [headerLoop] using h
  | cons col rest ih =>
    intro i m _
    rw [headerLoop]
    exact ih (i + 1) _ (Or.inr (by simp [mapAssign]))

theorem NewBinder_explicit {σ : Type} (tok : Tokenizer σ) (reader : σ) (o : Options)
    (H : GoMap Int String) (hH : o.Header = some H) (hne : H ≠ []) :
    NewBinder tok reader (some o) =
      .ok ⟨⟨separatorOf (some o), reader⟩, H,
        { Separator := separatorOf (some o), NullMarker := o.NullMarker,
          TimeZone := some (o.TimeZone.getD UTC), Header := some H }⟩ := by
  have hlen : ¬ mapLen H = 0 := fun h => hne ((mapLen_eq_zero H).1 h)
  obtain ⟨sep, nm, tz, hd⟩ := o
  simp only at hH
  subst hH
  unfold NewBinder
  by_cases hs : sep = 0 <;> cases tz <;>
    simp [hs, separatorOf, headerLen, hlen, NewReader]

theorem NewBinder_auto {σ : Type} (tok : Tokenizer σ) (reader : σ) (opts : Option Options)
    (hH : headerLen (headerOf opts) = 0) :
    NewBinder tok reader opts =
      match tok (separatorOf opts) reader with
      | (.error err, _) => .error err
      | (.ok header, s1) =>
        if header = [] then .error Error.ErrNoHeader
        else .ok ⟨⟨separatorOf opts, s1⟩, headerLoop 0 header [],
          { Separator := (opts.map Options.Separator).elim 0 (fun _ => separatorOf opts),
            NullMarker := (opts.map Options.NullMarker).getD "",
            TimeZone := some (((opts.map Options.TimeZone).getD none).getD UTC),
            Header := headerOf opts }⟩ := by
  have key : ∀ header : List String,
      (mapLen (headerLoop 0 header []) = 0) = (header = []) := by
    intro header
    apply propext
    rw [mapLen_eq_zero]
    constructor
    · intro h
      by_contra hne
      exact headerLoop_ne_nil header 0 [] (Or.inl hne) h
    · intro h; subst h; rfl
  cases opts with
  | none =>
    unfold NewBinder
    simp only [separatorOf, NewReader, Reader.Read, headerLen, headerOf]
    rcases htok : tok 44 reader with ⟨res, s1⟩
    cases res with
    | error e => simp
    | ok header => simp [key]
  | some o =>
    obtain ⟨sep, nm, tz, hd⟩ := o
    simp only [headerOf] at hH
    unfold NewBinder
    by_cases hs : sep = 0 <;> cases tz <;>
      simp only [hs, separatorOf, NewReader, Reader.Read, headerOf, hH, if_true,
        if_false, ite_true, ite_false] <;>
      (rcases htok : tok _ reader with ⟨res, s1⟩
       cases res with
       | error e => simp [hH]
       | ok header => simp [key, hH])

theorem ReadRow_fst {σ : Type} (tok : Tokenizer σ) (b : Binder σ) :
    (ReadRow tok b).1 = (tok b.csv.Comma b.csv.r).1.map (rowOf b) := by
  unfold ReadRow Reader.Read
  rcases h : tok b.csv.Comma b.csv.r with ⟨res, s1⟩
  cases res <;> simp [Except.map, rowOf]

theorem ReadRow_snd {σ : Type} (tok : Tokenizer σ) (b : Binder σ) :
    (ReadRow tok b).2 = { b with csv := ⟨b.csv.Comma, (tok b.csv.Comma b.csv.r).2⟩ } := by
  unfold ReadRow Reader.Read
  rcases h : tok b.csv.Comma b.csv.r with ⟨res, s1⟩
  cases res <;> simp

/-- C7: with an explicit header `H` that is not empty, whatever the other options are,
NewBinder succeeds, its metadata is `H` itself and it reads no record: the input of the
Binder is the input handed in, so the first ReadRow takes the first record of the stream
(or its error), and leaves the input one read further. -/
theorem NewBinder_explicit_header {σ : Type} (tok : Tokenizer σ) (reader : σ) (o : Options)
    (H : GoMap Int String) (hH : o.Header = some H) (hne : H ≠ []) :
    ∃ b, NewBinder tok reader (some o) = .ok b ∧ b.meta = H ∧ b.csv.r = reader ∧
      b.csv.Comma = separatorOf (some o) ∧
      (ReadRow tok b).1 = (tok (separatorOf (some o)) reader).1.map (rowOf b) ∧
      (ReadRow tok b).2.csv.r = (tok (separatorOf (some o)) reader).2 := by
  refine ⟨_, NewBinder_explicit tok reader o H hH hne, rfl, rfl, rfl, ?_, ?_⟩
  · rw [ReadRow_fst]
  · rw [ReadRow_snd]

theorem NewBinder_explicit_header_witness :
    ∃ b, NewBinder listTok twoRecords (some { Header := some [(0, "a"), (1, "b")] }) = .ok b ∧
      b.meta = [(0, "a"), (1, "b")] ∧ b.csv.r = twoRecords ∧
      b.csv.Comma = separatorOf (some { Header := some [(0, "a"), (1, "b")] }) ∧
      (ReadRow listTok b).1 =
        (listTok (separatorOf (some { Header := some [(0, "a"), (1, "b")] })) twoRecords).1.map
          (rowOf b) ∧
      (ReadRow listTok b).2.csv.r =
        (listTok (separatorOf (some { Header := some [(0, "a"), (1, "b")] })) twoRecords).2 :=
  NewBinder_explicit_header listTok twoRecords { Header := some [(0, "a"), (1, "b")] }
    [(0, "a"), (1, "b")] rfl (by decide)

/-- C8: without an explicit header NewBinder reads exactly one record. An error of that read
is what NewBinder returns. A record that is not empty makes it succeed, with metadata whose
keys are exactly the indices of the record and whose value at `i` is the `i`-th field, and
with the input left after that one read, so the first ReadRow takes the second record of the
stream. -/
theorem NewBinder_auto_header {σ : Type} (tok : Tokenizer σ) (reader : σ)
    (opts : Option Options) (hH : headerLen (headerOf opts) = 0) :
    (∀ e, (tok (separatorOf opts) reader).1 = .error e →
      NewBinder tok reader opts = .error e) ∧
    (∀ header, (tok (separatorOf opts) reader).1 = .ok header → header ≠ [] →
      ∃ b, NewBinder tok reader opts = .ok b ∧
        b.csv.r = (tok (separatorOf opts) reader).2 ∧
        (∀ i (h : i < header.length), mapIndex b.meta (i : Int) = some header[i]) ∧
        (∀ k : Int, k < 0 ∨ (header.length : Int) ≤ k → mapIndex b.meta k = none) ∧
        (ReadRow tok b).1 =
          (tok (separatorOf opts) (tok (separatorOf opts) reader).2).1.map (rowOf b) ∧
        (ReadRow tok b).2.csv.r =
          (tok (separatorOf opts) (tok (separatorOf opts) reader).2).2) := by
  have hnb := NewBinder_auto tok reader opts hH
  rcases htok : tok (separatorOf opts) reader with ⟨res, s1⟩
  rw [htok] at hnb
  constructor
  · intro e he
    simp only at he
    subst he
    exact hnb
  · intro header hhead hne
    simp only at hhead
    subst hhead
    simp only [if_neg hne] at hnb
    refine ⟨_, hnb, rfl, ?_, ?_, ?_, ?_⟩
    · intro i hi
      simp only
      rw [headerLoop_index, if_pos (by omega)]
      simp [hi]
    · intro k hk
      simp only
      rw [headerLoop_index, if_neg (by omega)]
      rfl
    · rw [ReadRow_fst]
    · rw [ReadRow_snd]

theorem NewBinder_auto_header_witness :
    ∃ b, NewBinder listTok twoRecords none = .ok b ∧
      b.csv.r = (listTok (separatorOf none) twoRecords).2 ∧
      (∀ i (h : i < ["id", "name"].length),
        mapIndex b.meta (i : Int) = some ["id", "name"][i]) ∧
      (∀ k : Int, k < 0 ∨ ((["id", "name"].length : Nat) : Int) ≤ k →
        mapIndex b.meta k = none) ∧
      (ReadRow listTok b).1 =
        (listTok (separatorOf none) (listTok (separatorOf none) twoRecords).2).1.map
          (rowOf b) ∧
      (ReadRow listTok b).2.csv.r =
        (listTok (separatorOf none) (listTok (separatorOf none) twoRecords).2).2 :=
  (NewBinder_auto_header listTok twoRecords none (by decide)).2 ["id", "name"] rfl (by decide)

/-- C9: without an explicit header, a first record of zero fields makes NewBinder fail with
ErrNoHeader; no Binder is returned. -/
theorem NewBinder_empty_first_record {σ : Type} (tok : Tokenizer σ) (reader : σ)
    (opts : Option Options) (hH : headerLen (headerOf opts) = 0)
    (hrec : (tok (separatorOf opts) reader).1 = .ok []) :
    NewBinder tok reader opts = .error Error.ErrNoHeader := by
  have hnb := NewBinder_auto tok reader opts hH
  rcases htok : tok (separatorOf opts) reader with ⟨res, s1⟩
  rw [htok] at hnb hrec
  simp only at hrec
  subst hrec
  simpa using hnb

theorem NewBinder_empty_first_record_witness :
    NewBinder listTok [[], ["7", "alice"]] (some { NullMarker := "NULL" }) =
      .error Error.ErrNoHeader :=
  NewBinder_empty_first_record listTok [[], ["7", "alice"]] (some { NullMarker := "NULL" })
    (by decide) (by decide)

/-- C10, the code at the failing input: with an explicit header that is not nil and is
empty, NewBinder does not fail with ErrNoCustomHeader; it takes the first record of the
stream as the header and returns a Binder. -/
theorem NewBinder_empty_explicit_header :
    NewBinder listTok twoRecords (some { Header := some [] }) =
      .ok ⟨⟨44, [["7", "alice"]]⟩, [(1, "name"), (0, "id")],
        { Separator := 44, NullMarker := "", TimeZone := some UTC, Header := some [] }⟩ := by
  decide

theorem FieldByName_setData (x : Struct) (n n' : String) (d : Data) :
    FieldByName (setData x n d) n' =
      (FieldByName x n').map (fun f => if f.name = n then { f with data := d } else f) := by
  induction x with
  | nil => simp [setData, FieldByName]
  | cons f rest ih =>
    unfold FieldByName at ih ⊢
    rw [setData]
    by_cases hf : f.name = n
    · rw [if_pos hf]
      by_cases hn : f.name = n'
      · have hnn : n' = n := hn.symm.trans hf
        simp [List.find?_cons, hn, hnn]
      · simp [List.find?_cons, hn]
        -- the fields behind the one that is set are the same
        cases hfind : List.find? (fun f => decide (f.name = n')) rest with
        | none => simp
        | some g =>
          have hg : g.name = n' := by
            have := List.find?_some hfind
            simpa using this
          have : ¬ g.name = n := by
            intro h
            exact hn (hf.trans (h.symm.trans hg))
          simp [this]
    · rw [if_neg hf]
      by_cases hn : f.name = n'
      · have hnn : ¬ n' = n := fun h => hf (hn.trans h)
        simp [List.find?_cons, hn, hnn]
      · simpa [List.find?_cons, hn] using ih

theorem fieldSig_setData (x : Struct) (n n' : String) (d : Data) :
    fieldSig (setData x n d) n' = fieldSig x n' := by
  unfold fieldSig
  rw [FieldByName_setData]
  cases FieldByName x n' with
  | none => rfl
  | some f => by_cases h : f.name = n <;> simp [h]

theorem fieldData_setData_ne (x : Struct) (n n' : String) (d : Data) (h : n' ≠ n) :
    fieldData (setData x n d) n' = fieldData x n' := by
  unfold fieldData
  rw [FieldByName_setData]
  cases hf : FieldByName x n' with
  | none => rfl
  | some f =>
    have hname : f.name = n' := by
      have := List.find?_some hf
      simpa using this
    have : ¬ f.name = n := fun h1 => h (hname.symm.trans h1)
    simp [this]

theorem fieldData_setData_eq (x : Struct) (n : String) (d : Data)
    (h : (FieldByName x n).isSome) :
    fieldData (setData x n d) n = some d := by
  unfold fieldData
  rw [FieldByName_setData]
  cases hf : FieldByName x n with
  | none => rw [hf] at h; simp at h
  | some f =>
    have hname : f.name = n := by
      have := List.find?_some hf
      simpa using this
    simp [hname]

theorem setFieldDropErr_eq (x : Struct) (dest : String) (v : Value) :
    setFieldDropErr x dest v = x ∨ setFieldDropErr x dest v = setData x dest v.data := by
  unfold setFieldDropErr SetField
  cases FieldByName x dest with
  | none => simp
  | some f =>
    by_cases he : f.exported = true
    · by_cases ht : f.typ = v.typ
      · simp [he, ht]
      · simp [he, ht]
    · simp [he]

theorem setFieldDropErr_ok (x : Struct) (dest : String) (v : Value)
    (h : fieldSig x dest = some (v.typ, true)) :
    setFieldDropErr x dest v = setData x dest v.data := by
  unfold fieldSig at h
  unfold setFieldDropErr SetField
  cases hf : FieldByName x dest with
  | none => rw [hf] at h; simp at h
  | some f =>
    rw [hf] at h
    simp only [Option.map_some', Option.some.injEq, Prod.mk.injEq] at h
    simp [h.1, h.2]

theorem fieldSig_setFieldDropErr (x : Struct) (dest : String) (v : Value) (n : String) :
    fieldSig (setFieldDropErr x dest v) n = fieldSig x n := by
  rcases setFieldDropErr_eq x dest v with h | h
  · rw [h]
  · rw [h, fieldSig_setData]

theorem fieldData_setFieldDropErr_ne (x : Struct) (dest : String) (v : Value) (n : String)
    (hn : n ≠ dest) :
    fieldData (setFieldDropErr x dest v) n = fieldData x n := by
  rcases setFieldDropErr_eq x dest v with h | h
  · rw [h]
  · rw [h, fieldData_setData_ne _ _ _ _ hn]

theorem GetFieldKind_of_sig (x : Struct) (dest : String) (t : GoType) (e : Bool)
    (h : fieldSig x dest = some (t, e)) : GetFieldKind x dest = .ok t.kind := by
  unfold fieldSig at h
  unfold GetFieldKind
  cases hf : FieldByName x dest with
  | none => rw [hf] at h; simp at h
  | some f =>
    rw [hf] at h
    simp only [Option.map_some', Option.some.injEq, Prod.mk.injEq] at h
    simp [h.1]

theorem isSome_of_sig (x : Struct) (dest : String) (p : GoType × Bool)
    (h : fieldSig x dest = some p) : (FieldByName x dest).isSome := by
  unfold fieldSig at h
  cases hf : FieldByName x dest with
  | none => rw [hf] at h; simp at h
  | some f => rfl

theorem bindPair_absent (r : Row) (x : Struct) (src dest : String)
    (h : mapIndex r.data src = none) : bindPair r x src dest = (x, Ret.nil) := by
  unfold bindPair
  rw [h]

/-- C5: when no source column of the mapping is in the Row, Bind returns nil and the
destination is what it was, whatever the destination field names of the mapping are. -/
theorem Bind_absent_sources (r : Row) (x : Struct) (strategy : List (String × String))
    (h : ∀ p ∈ strategy, mapIndex r.data p.1 = none) :
    Bind r x strategy = (x, Ret.nil) := by
  induction strategy with
  | nil => rfl
  | cons p rest ih =>
    obtain ⟨src, dest⟩ := p
    rw [Bind, bindPair_absent r x src dest (h (src, dest) (by simp))]
    exact ih (fun q hq => h q (by simp [hq]))

theorem Bind_absent_sources_witness :
    Bind ⟨[("id", "7")], utcOptions⟩ person [("name", "Name"), ("age", "Age"), ("x", "Nope")] =
      (person, Ret.nil) :=
  Bind_absent_sources ⟨[("id", "7")], utcOptions⟩ person
    [("name", "Name"), ("age", "Age"), ("x", "Nope")] (by decide)

theorem fieldSig_bindPair (r : Row) (x : Struct) (src dest : String) (n : String) :
    fieldSig (bindPair r x src dest).1 n = fieldSig x n := by
  unfold bindPair
  repeat' split
  all_goals first
    | rfl
    | exact fieldSig_setFieldDropErr _ _ _ _

theorem fieldData_bindPair_ne (r : Row) (x : Struct) (src dest : String) (n : String)
    (hn : n ≠ dest) :
    fieldData (bindPair r x src dest).1 n = fieldData x n := by
  unfold bindPair
  repeat' split
  all_goals first
    | rfl
    | exact fieldData_setFieldDropErr_ne _ _ _ _ hn

theorem Bind_cons (r : Row) (x : Struct) (src dest : String) (rest : List (String × String)) :
    Bind r x ((src, dest) :: rest) =
      if (bindPair r x src dest).2 = Ret.nil then Bind r (bindPair r x src dest).1 rest
      else bindPair r x src dest := by
  rw [Bind]
  rcases h : bindPair r x src dest with ⟨x1, ret⟩
  cases ret <;> simp

theorem fieldSig_Bind (r : Row) (n : String) :
    ∀ (strategy : List (String × String)) (x : Struct),
      fieldSig (Bind r x strategy).1 n = fieldSig x n := by
  intro strategy
  induction strategy with
  | nil => intro x; rfl
  | cons p rest ih =>
    intro x
    obtain ⟨src, dest⟩ := p
    rw [Bind_cons]
    split
    · rw [ih, fieldSig_bindPair]
    · rw [fieldSig_bindPair]

theorem fieldData_Bind_other (r : Row) (n : String) :
    ∀ (strategy : List (String × String)) (x : Struct),
      n ∉ strategy.map Prod.snd → fieldData (Bind r x strategy).1 n = fieldData x n := by
  intro strategy
  induction strategy with
  | nil => intro x _; rfl
  | cons p rest ih =>
    intro x hn
    obtain ⟨src, dest⟩ := p
    simp only [List.map_cons, List.mem_cons, not_or] at hn
    rw [Bind_cons]
    split
    · rw [ih _ hn.2, fieldData_bindPair_ne _ _ _ _ _ hn.1]
    · rw [fieldData_bindPair_ne _ _ _ _ _ hn.1]

theorem Bind_append (r : Row) (post : List (String × String)) :
    ∀ (pre : List (String × String)) (x : Struct),
      Bind r x (pre ++ post) =
        if (Bind r x pre).2 = Ret.nil then Bind r (Bind r x pre).1 post else Bind r x pre := by
  intro pre
  induction pre with
  | nil => intro x; simp [Bind]
  | cons p rest ih =>
    intro x
    obtain ⟨src, dest⟩ := p
    rw [List.cons_append, Bind_cons, Bind_cons]
    by_cases h : (bindPair r x src dest).2 = Ret.nil
    · rw [if_pos h, if_pos h, ih]
    · rw [if_neg h, if_neg h, if_neg h]

theorem GetFieldKind_eq_of_sig (x x1 : Struct) (dest : String)
    (h : fieldSig x1 dest = fieldSig x dest) : GetFieldKind x1 dest = GetFieldKind x dest := by
  unfold fieldSig at h
  unfold GetFieldKind
  cases h1 : FieldByName x1 dest <;> cases h2 : FieldByName x dest <;>
    rw [h1, h2] at h <;> simp at h ⊢
  exact congrArg GoType.kind h.1

theorem parseUintLoop_not_digits :
    ∀ (l : List Char) (n : Nat), l.all isDigit = false →
      ∃ e, parseUintLoop l n = .error e := by
  intro l
  induction l with
  | nil => intro n h; simp at h
  | cons c rest ih =>
    intro n h
    rw [parseUintLoop]
    by_cases hc : isDigit c = true
    · have hrest : rest.all isDigit = false := by
        simpa [List.all_cons, hc] using h
      simp only [hc, not_true_eq_false, if_false]
      split
      · exact ⟨_, rfl⟩
      · split
        · exact ⟨_, rfl⟩
        · exact ih _ hrest
    · simp only [hc, if_true]
      exact ⟨_, rfl⟩

theorem ParseInt_of_ParseUint_error (s : String) (hs : s ≠ "") (neg : Bool) (t : List Char)
    (hnd : (match s.data with
      | '+' :: t => (false, t)
      | '-' :: t => (true, t)
      | cs => (false, cs)) = (neg, t))
    (e : NumErr) (he : ParseUint t = .error e) :
    ∃ e1, ParseInt s = .error (Error.NumError s e1) := by
  unfold ParseInt
  rw [if_neg hs]
  simp only [hnd, he]
  cases e with
  | ErrSyntax => exact ⟨_, rfl⟩
  | ErrRange =>
    cases neg
    · exact ⟨NumErr.ErrRange, by simp [maxVal]⟩
    · exact ⟨NumErr.ErrRange, by simp [maxVal]⟩

theorem ParseInt_not_base10 (s : String) (h : isBase10Int s = false) :
    ∃ e, ParseInt s = .error (Error.NumError s e) := by
  by_cases hs : s = ""
  · subst hs
    exact ⟨NumErr.ErrSyntax, by decide⟩
  · have key : ∀ t : List Char, (!t.isEmpty && t.all isDigit) = false →
        ∃ e, ParseUint t = .error e := by
      intro t ht
      unfold ParseUint
      by_cases hte : t = []
      · rw [if_pos hte]; exact ⟨_, rfl⟩
      · rw [if_neg hte]
        apply parseUintLoop_not_digits
        cases t with
        | nil => exact absurd rfl hte
        | cons c t1 => simpa using ht
    unfold isBase10Int at h
    split at h
    · rename_i t heq
      obtain ⟨e, he⟩ := key t h
      exact ParseInt_of_ParseUint_error s hs false t (by rw [heq]; rfl) e he
    · rename_i t heq
      obtain ⟨e, he⟩ := key t h
      exact ParseInt_of_ParseUint_error s hs true t (by rw [heq]; rfl) e he
    · rename_i cs h1 h2
      obtain ⟨e, he⟩ := key _ h
      refine ParseInt_of_ParseUint_error s hs false s.data ?_ e he
      split
      · rename_i t heq; exact absurd heq (h1 t)
      · rename_i t heq; exact absurd heq (h2 t)
      · rfl

/-- C4: Bind is not atomic. When the pairs `pre` processed first all go through, leaving the
destination `x1`, and the next pair has a source value that is not a base-10 signed integer
for a destination field of kind Int64, Bind returns a `*strconv.NumError` for that value and
the destination is `x1`: the fields written before keep their new values, the failing pair
writes nothing, and none of the pairs `post` after it is applied. -/
theorem Bind_not_atomic (r : Row) (x x1 : Struct) (pre post : List (String × String))
    (src dest v : String)
    (hpre : Bind r x pre = (x1, Ret.nil))
    (hv : mapIndex r.data src = some v)
    (hk : GetFieldKind x dest = .ok Kind.Int64)
    (hbad : isBase10Int v = false) :
    ∃ e, Bind r x (pre ++ (src, dest) :: post) = (x1, Ret.err (Error.NumError v e)) := by
  obtain ⟨e, he⟩ := ParseInt_not_base10 v hbad
  refine ⟨e, ?_⟩
  have hsig : fieldSig x1 dest = fieldSig x dest := by
    have := fieldSig_Bind r dest pre x
    rw [hpre] at this
    exact this
  have hk1 : GetFieldKind x1 dest = .ok Kind.Int64 := by
    rw [GetFieldKind_eq_of_sig x x1 dest hsig, hk]
  have hpair : bindPair r x1 src dest = (x1, Ret.err (Error.NumError v e)) := by
    unfold bindPair
    simp only [hv, hk1, he]
  rw [Bind_append, hpre]
  simp only [if_true]
  rw [Bind_cons, hpair]
  simp

theorem Bind_not_atomic_witness :
    ∃ e, Bind ⟨[("name", "alice"), ("age", "abc"), ("id", "7")], utcOptions⟩ person
        ([("name", "Name")] ++ ("age", "Age") :: [("id", "ID")]) =
      (setData person "Name" (Data.str "alice"), Ret.err (Error.NumError "abc" e)) :=
  Bind_not_atomic ⟨[("name", "alice"), ("age", "abc"), ("id", "7")], utcOptions⟩ person
    (setData person "Name" (Data.str "alice")) [("name", "Name")] [("id", "ID")]
    "age" "Age" "abc" (by decide) (by decide) (by decide) (by decide)

theorem digitChar_digit (k : Nat) (h : k < 10) :
    isDigit (Nat.digitChar k) = true ∧ digitVal (Nat.digitChar k) = k := by
  interval_cases k <;> decide

theorem parseUintLoop_append (c : Char) :
    ∀ (l : List Char) (a : Nat),
      parseUintLoop (l ++ [c]) a =
        match parseUintLoop l a with
        | .ok m => parseUintLoop [c] m
        | .error e => .error e := by
  intro l
  induction l with
  | nil => intro a; simp [parseUintLoop]
  | cons d rest ih =>
    intro a
    rw [List.cons_append, parseUintLoop, parseUintLoop]
    split
    · rfl
    · split
      · rfl
      · simp only
        split
        · rfl
        · exact ih _

theorem parseUintLoop_single (c : Char) (m : Nat) (hc : isDigit c = true)
    (hm : m * 10 + digitVal c ≤ maxVal) :
    parseUintLoop [c] m = .ok (m * 10 + digitVal c) := by
  have h64 : maxVal = 2 ^ 64 - 1 := rfl
  have hmod : (m * 10 + digitVal c) % 2 ^ 64 = m * 10 + digitVal c :=
    Nat.mod_eq_of_lt (by omega)
  rw [parseUintLoop]
  simp only [hc, not_true_eq_false, if_false, hmod]
  rw [if_neg (by omega), if_neg (by omega), parseUintLoop]

theorem toDigitsCore_parse :
    ∀ (fuel n : Nat), n < fuel → n ≤ maxVal →
      ∃ ds : List Char, (∀ acc, Nat.toDigitsCore 10 fuel n acc = ds ++ acc) ∧ ds ≠ [] ∧
        (∀ c ∈ ds, isDigit c = true) ∧ parseUintLoop ds 0 = .ok n := by
  intro fuel
  induction fuel with
  | zero => intro n h; omega
  | succ fuel ih =>
    intro n hn hmax
    obtain ⟨hd1, hd2⟩ := digitChar_digit (n % 10) (Nat.mod_lt _ (by norm_num))
    by_cases h0 : n / 10 = 0
    · refine ⟨[Nat.digitChar (n % 10)], ?_, by simp, ?_, ?_⟩
      · intro acc; simp [Nat.toDigitsCore, h0]
      · intro c hc
        simp only [List.mem_singleton] at hc
        rw [hc]; exact hd1
      · have := parseUintLoop_single (Nat.digitChar (n % 10)) 0 hd1 (by rw [hd2]; omega)
        rw [this, hd2]
        congr 1
        omega
    · obtain ⟨ds, h1, h2, h3, h4⟩ := ih (n / 10) (by omega) (by omega)
      refine ⟨ds ++ [Nat.digitChar (n % 10)], ?_, by simp, ?_, ?_⟩
      · intro acc
        simp [Nat.toDigitsCore, h0, h1]
      · intro c hc
        rcases List.mem_append.1 hc with h | h
        · exact h3 c h
        · simp only [List.mem_singleton] at h
          rw [h]; exact hd1
      · rw [parseUintLoop_append, h4]
        simp only
        have := parseUintLoop_single (Nat.digitChar (n % 10)) (n / 10) hd1
          (by rw [hd2]; omega)
        rw [this, hd2]
        congr 1
        omega

theorem ParseInt_digits (s : String) (neg : Bool) (ds : List Char) (m : Nat)
    (hs : s ≠ "")
    (hnd : (match s.data with
      | '+' :: t => (false, t)
      | '-' :: t => (true, t)
      | cs => (false, cs)) = (neg, ds))
    (hne : ds ≠ []) (hp : parseUintLoop ds 0 = .ok m)
    (hrange : if neg then m ≤ 2 ^ 63 else m < 2 ^ 63) :
    ParseInt s = .ok (if neg then -(m : Int) else (m : Int)) := by
  unfold ParseInt
  rw [if_neg hs]
  simp only [hnd, ParseUint, if_neg hne, hp]
  cases neg
  · simp only [Bool.false_eq_true, if_false] at hrange
    simp only [Bool.false_eq_true, not_false_eq_true, true_and, false_and, if_false]
    rw [if_neg (by omega)]
  · simp only [if_true] at hrange
    simp only [not_true_eq_false, false_and, if_false, true_and, if_true]
    rw [if_neg (by omega)]

theorem ParseInt_toString (n : Int) (hlo : -2 ^ 63 ≤ n) (hhi : n < 2 ^ 63) :
    ParseInt (toString n) = .ok n := by
  have hmax : maxVal = 2 ^ 64 - 1 := rfl
  cases n with
  | ofNat m =>
    have hm : m < 2 ^ 63 := by
      have : ((m : Nat) : Int) < 2 ^ 63 := hhi
      exact_mod_cast this
    obtain ⟨ds, h1, h2, h3, h4⟩ := toDigitsCore_parse (m + 1) m (by omega) (by omega)
    have hdata : (toString (Int.ofNat m)).data = ds := by
      show Nat.toDigitsCore 10 (m + 1) m [] = ds
      rw [h1, List.append_nil]
    have hs : toString (Int.ofNat m) ≠ "" := by
      intro h
      rw [h] at hdata
      exact h2 hdata.symm
    have := ParseInt_digits (toString (Int.ofNat m)) false ds m hs (by
      rw [hdata]
      split
      · have := h3 '+' (by simp)
        exact absurd this (by decide)
      · have := h3 '-' (by simp)
        exact absurd this (by decide)
      · rfl) h2 h4 (by simpa using hm)
    simpa using this
  | negSucc m =>
    have hm : m + 1 ≤ 2 ^ 63 := by
      have : -2 ^ 63 ≤ Int.negSucc m := hlo
      rw [Int.negSucc_eq] at this
      have h2 : ((m : Int) + 1) ≤ 2 ^ 63 := by omega
      exact_mod_cast h2
    obtain ⟨ds, h1, h2, h3, h4⟩ := toDigitsCore_parse (m + 1 + 1) (m + 1) (by omega) (by omega)
    have hdata : (toString (Int.negSucc m)).data = '-' :: ds := by
      show ("-" ++ Nat.repr (m + 1)).data = '-' :: ds
      rw [String.data_append]
      show ['-'] ++ Nat.toDigitsCore 10 (m + 1 + 1) (m + 1) [] = '-' :: ds
      rw [h1, List.append_nil]
      rfl
    have hs : toString (Int.negSucc m) ≠ "" := by
      intro h
      rw [h] at hdata
      simp at hdata
    have := ParseInt_digits (toString (Int.negSucc m)) true ds (m + 1) hs (by
      rw [hdata]; rfl) h2 h4 (by simpa using hm)
    rw [this, Int.negSucc_eq]
    simp

/-- C3 (amended): for every 64-bit signed integer `n`, every row in which the source column
holds the decimal representation of `n`, and every destination whose mapped field is an
exported field of type `int64`, Bind with the single pair returns nil, sets that field to
`n` and leaves the other fields as they were. -/
theorem Bind_int64 (n : Int) (hlo : -2 ^ 63 ≤ n) (hhi : n < 2 ^ 63) (r : Row) (x : Struct)
    (src dest : String)
    (hv : mapIndex r.data src = some (toString n))
    (hf : fieldSig x dest = some (int64Type, true)) :
    ∃ x1, Bind r x [(src, dest)] = (x1, Ret.nil) ∧ fieldData x1 dest = some (Data.int n) ∧
      ∀ f, f ≠ dest → fieldData x1 f = fieldData x f := by
  have hk : GetFieldKind x dest = .ok Kind.Int64 := GetFieldKind_of_sig x dest _ _ hf
  have hset := setFieldDropErr_ok x dest ⟨int64Type, Data.int n⟩ hf
  have hpair : bindPair r x src dest = (setData x dest (Data.int n), Ret.nil) := by
    unfold bindPair
    simp only [hv, hk, ParseInt_toString n hlo hhi, hset]
  refine ⟨setData x dest (Data.int n), ?_, ?_, ?_⟩
  · rw [Bind_cons, hpair]
    simp [Bind]
  · exact fieldData_setData_eq x dest _ (isSome_of_sig x dest _ hf)
  · intro f hne
    exact fieldData_setData_ne x dest f _ hne

theorem Bind_int64_witness :
    ∃ x1, Bind ⟨[("age", "42")], utcOptions⟩ person [("age", "Age")] = (x1, Ret.nil) ∧
      fieldData x1 "Age" = some (Data.int 42) ∧
      ∀ f, f ≠ "Age" → fieldData x1 f = fieldData person f :=
  Bind_int64 42 (by decide) (by decide) ⟨[("age", "42")], utcOptions⟩ person "age" "Age"
    (by decide) (by decide)

/-- C3 fails as stated: the field `Timeout time.Duration` is of kind Int64 and the source
value is the decimal representation of 42, yet Bind, which returns nil, leaves the field at
0: `SetField` refuses an `int64` for a field of another type and its error is dropped. -/
theorem Bind_int64_kind_counterexample :
    GetFieldKind withDuration "Timeout" = .ok Kind.Int64 ∧
      Bind ⟨[("timeout", toString (42 : Int))], utcOptions⟩ withDuration
          [("timeout", "Timeout")] = (withDuration, Ret.nil) ∧
      fieldData withDuration "Timeout" = some (Data.int 0) := by
  decide

theorem Bind_strings (r : Row) :
    ∀ (strategy : List (String × String)) (x : Struct),
      (strategy.map Prod.snd).Nodup →
      (∀ p ∈ strategy, ∀ v, mapIndex r.data p.1 = some v →
        fieldSig x p.2 = some (stringType, true)) →
      (Bind r x strategy).2 = Ret.nil ∧
        ∀ p ∈ strategy, ∀ v, mapIndex r.data p.1 = some v →
          fieldData (Bind r x strategy).1 p.2 = some (Data.str v) := by
  intro strategy
  induction strategy with
  | nil => intro x _ _; exact ⟨rfl, by simp⟩
  | cons p rest ih =>
    intro x hnodup hfields
    obtain ⟨src, dest⟩ := p
    simp only [List.map_cons, List.nodup_cons] at hnodup
    cases hsrc : mapIndex r.data src with
    | none =>
      have hpair := bindPair_absent r x src dest hsrc
      have hrest := ih x hnodup.2 (fun q hq => hfields q (by simp [hq]))
      rw [Bind_cons, hpair]
      simp only [if_true]
      refine ⟨hrest.1, ?_⟩
      intro q hq v hv
      rcases List.mem_cons.1 hq with h | h
      · subst h
        simp only at hv
        rw [hsrc] at hv
        simp at hv
      · exact hrest.2 q h v hv
    | some w =>
      have hsig := hfields (src, dest) (by simp) w hsrc
      have hk : GetFieldKind x dest = .ok Kind.String := GetFieldKind_of_sig x dest _ _ hsig
      have hset := setFieldDropErr_ok x dest ⟨stringType, Data.str w⟩ hsig
      have hpair : bindPair r x src dest = (setData x dest (Data.str w), Ret.nil) := by
        unfold bindPair
        simp only [hsrc, hk, hset]
      have hrest := ih (setData x dest (Data.str w)) hnodup.2 (fun q hq v hv => by
        rw [fieldSig_setData]
        exact hfields q (by simp [hq]) v hv)
      rw [Bind_cons, hpair]
      simp only [if_true]
      refine ⟨hrest.1, ?_⟩
      intro q hq v hv
      rcases List.mem_cons.1 hq with h | h
      · subst h
        simp only at hv
        rw [hsrc] at hv
        simp only [Option.some.injEq] at hv
        subst hv
        simp only
        rw [fieldData_Bind_other r dest rest _ hnodup.1]
        exact fieldData_setData_eq x dest _ (isSome_of_sig x dest _ hsig)
      · exact hrest.2 q h v hv

/-- C2 (amended): round trip of ReadRow then Bind. For a header of pairwise distinct column
names, a record of the same length whose values are all non-empty and differ from the
null-marker, and a mapping that sends column names to pairwise distinct exported fields of
type `string` of the destination, ReadRow yields the row that holds the `i`-th value under
the `i`-th name and nothing else, and Bind returns nil and leaves each mapped field equal to
the raw value of its column. -/
theorem ReadRow_Bind_round_trip {σ : Type} (tok : Tokenizer σ) (b : Binder σ)
    (header record : List String) (x : Struct) (strategy : List (String × String))
    (hmeta : ∀ i (h : i < header.length), metaName b.meta (i : Int) = header[i])
    (hnodup : header.Nodup)
    (hread : (tok b.csv.Comma b.csv.r).1 = .ok record)
    (hlen : record.length = header.length)
    (hvals : ∀ v ∈ record, v ≠ "" ∧ v ≠ b.opts.NullMarker)
    (hdests : (strategy.map Prod.snd).Nodup)
    (hfields : ∀ p ∈ strategy, p.1 ∈ header → fieldSig x p.2 = some (stringType, true)) :
    ∃ row, (ReadRow tok b).1 = .ok row ∧
      (∀ nv ∈ header.zip record, mapIndex row.data nv.1 = some nv.2) ∧
      (∀ k, k ∉ header → mapIndex row.data k = none) ∧
      ∃ x1, Bind row x strategy = (x1, Ret.nil) ∧
        ∀ nv ∈ header.zip record, ∀ d, (nv.1, d) ∈ strategy →
          fieldData x1 d = some (Data.str nv.2) := by
  have hdistinct : ∀ i j, i < record.length → j < record.length →
      metaName b.meta (i : Int) = metaName b.meta (j : Int) → i = j := by
    intro i j hi hj hij
    rw [hmeta i (by omega), hmeta j (by omega)] at hij
    exact (List.Nodup.getElem_inj_iff hnodup).1 hij
  have hkeep := readRowLoop_keeps b.meta b.opts.NullMarker record hdistinct
  have hrow : ∀ nv ∈ header.zip record,
      mapIndex (readRowLoop b.meta b.opts.NullMarker 0 record []) nv.1 = some nv.2 := by
    intro nv hnv
    obtain ⟨i, hi, hget⟩ := List.mem_iff_getElem.1 hnv
    rw [List.getElem_zip] at hget
    have h : i < header.length := by
      rw [List.length_zip] at hi
      omega
    have h1 : i < record.length := by omega
    have := hkeep i h1
    rw [hmeta i h] at this
    rw [← hget]
    simp only
    rw [this, if_neg]
    have hv := hvals record[i] (List.getElem_mem _)
    simp [hv.1, hv.2]
  have hnone : ∀ k, k ∉ header →
      mapIndex (readRowLoop b.meta b.opts.NullMarker 0 record []) k = none := by
    intro k hk
    apply readRowLoop_no_other
    intro i hi hname
    rw [hmeta i (by omega)] at hname
    exact hk (hname ▸ List.getElem_mem _)
  have hbind := Bind_strings ⟨readRowLoop b.meta b.opts.NullMarker 0 record [], b.opts⟩
    strategy x hdests (by
      intro p hp v hv
      apply hfields p hp
      by_contra hnot
      simp only at hv
      rw [hnone p.1 hnot] at hv
      simp at hv)
  refine ⟨_, ReadRow_ok tok b record hread, hrow, hnone, _, Prod.ext rfl hbind.1, ?_⟩
  intro nv hnv d hd
  exact hbind.2 (nv.1, d) hd nv.2 (hrow nv hnv)

theorem ReadRow_Bind_round_trip_witness :
    ∃ row, (ReadRow listTok binderIdName).1 = .ok row ∧
      (∀ nv ∈ ["id", "name"].zip ["7", "alice"], mapIndex row.data nv.1 = some nv.2) ∧
      (∀ k, k ∉ ["id", "name"] → mapIndex row.data k = none) ∧
      ∃ x1, Bind row person [("id", "ID"), ("name", "Name")] = (x1, Ret.nil) ∧
        ∀ nv ∈ ["id", "name"].zip ["7", "alice"], ∀ d,
          (nv.1, d) ∈ [("id", "ID"), ("name", "Name")] →
            fieldData x1 d = some (Data.str nv.2) :=
  ReadRow_Bind_round_trip listTok binderIdName ["id", "name"] ["7", "alice"] person
    [("id", "ID"), ("name", "Name")] (by decide) (by decide) (by decide) (by decide)
    (by decide) (by decide) (by decide)

/-- C2 fails as stated: header `id, name`, record `7, alice`, and a mapping onto the two
distinct fields `ID` and `Name`, both of kind String. Bind returns nil and sets `Name`, but
`ID`, whose type is the named string type `Code`, is left empty: `SetField` refuses a
`string` for it and its error is dropped. -/
theorem round_trip_string_kind_counterexample :
    (ReadRow listTok binderIdName).1 = .ok ⟨[("name", "alice"), ("id", "7")], utcOptions⟩ ∧
      GetFieldKind withCode "ID" = .ok Kind.String ∧
      GetFieldKind withCode "Name" = .ok Kind.String ∧
      Bind ⟨[("name", "alice"), ("id", "7")], utcOptions⟩ withCode
          [("id", "ID"), ("name", "Name")] =
        (setData withCode "Name" (Data.str "alice"), Ret.nil) ∧
      fieldData (setData withCode "Name" (Data.str "alice")) "ID" = some (Data.str "") := by
  decide

theorem daysIn_eq (year month : Nat) (h1 : 1 ≤ month) (h12 : month ≤ 12) :
    daysIn month year = daysInMonth year month := by
  unfold daysIn daysInMonth isLeap
  interval_cases month <;> simp

theorem getYear_some (s r : List Char) (y : Nat) (h : getYear s = some (y, r)) :
    ∃ a b c d, s = a :: b :: c :: d :: r ∧
      isDigit a = true ∧ isDigit b = true ∧ isDigit c = true ∧ isDigit d = true ∧
      y = digitsVal [a, b, c, d] := by
  unfold getYear at h
  split at h
  · rename_i a b c d t
    split at h
    · rename_i hd
      simp only [Option.some.injEq, Prod.mk.injEq] at h
      refine ⟨a, b, c, d, by rw [h.2], hd.1, hd.2.1, hd.2.2.1, hd.2.2.2, ?_⟩
      rw [← h.1]
      simp [digitsVal]
      ring
    · simp at h
  · simp at h

theorem skipChar_some (p : Char) (s r : List Char) (h : skipChar p s = some r) :
    s = p :: r := by
  unfold skipChar at h
  split at h
  · simp at h
  · split at h
    · rename_i hc
      simp only [Option.some.injEq] at h
      rw [hc, h]
    · simp at h

theorem getnum_fixed_some (s r : List Char) (n : Nat) (h : getnum s true = some (n, r)) :
    ∃ a b, s = a :: b :: r ∧ isDigit a = true ∧ isDigit b = true ∧
      n = digitsVal [a, b] := by
  unfold getnum at h
  split at h
  · simp at h
  · rename_i c0 t
    split at h
    · simp at h
    · rename_i h0
      split at h
      · simp at h
      · rename_i c1 t1
        split at h
        · simp at h
        · rename_i hc1
          simp only [Option.some.injEq, Prod.mk.injEq] at h
          refine ⟨c0, c1, by rw [h.2], by simpa using h0, by simpa using hc1, ?_⟩
          rw [← h.1]
          simp [digitsVal]

theorem getnum_free_some (s r : List Char) (n : Nat) (h : getnum s false = some (n, r)) :
    ∃ hour, s = hour ++ r ∧ (hour.length = 1 ∨ hour.length = 2) ∧
      (∀ c ∈ hour, isDigit c = true) ∧ n = digitsVal hour := by
  unfold getnum at h
  split at h
  · simp at h
  · rename_i c0 t
    split at h
    · simp at h
    · rename_i h0
      have h0 : isDigit c0 = true := by simpa using h0
      split at h
      · simp only [Bool.false_eq_true, if_false, Option.some.injEq, Prod.mk.injEq] at h
        refine ⟨[c0], by rw [← h.2]; rfl, Or.inl rfl, by simpa using h0, ?_⟩
        rw [← h.1]
        simp [digitsVal]
      · rename_i c1 t1
        split at h
        · simp only [Bool.false_eq_true, if_false, Option.some.injEq, Prod.mk.injEq] at h
          refine ⟨[c0], by rw [← h.2]; rfl, Or.inl rfl, by simpa using h0, ?_⟩
          rw [← h.1]
          simp [digitsVal]
        · rename_i hc1
          have hc1 : isDigit c1 = true := by simpa using hc1
          simp only [Option.some.injEq, Prod.mk.injEq] at h
          refine ⟨[c0, c1], by rw [← h.2]; rfl, Or.inr rfl, by simp [h0, hc1], ?_⟩
          rw [← h.1]
          simp [digitsVal]

theorem dropWhile_space (s : List Char) :
    ∃ k, s = List.replicate k ' ' ++ s.dropWhile (fun c => decide (c = ' ')) := by
  induction s with
  | nil => exact ⟨0, rfl⟩
  | cons c t ih =>
    by_cases hc : c = ' '
    · obtain ⟨k, hk⟩ := ih
      refine ⟨k + 1, ?_⟩
      rw [List.dropWhile_cons_of_pos (by simpa using hc), List.replicate_succ, hc,
        List.cons_append, ← hk]
    · refine ⟨0, ?_⟩
      rw [List.dropWhile_cons_of_neg (by simpa using hc)]
      rfl

theorem skipSpace_some (s r : List Char) (c : Char) (t : List Char)
    (h : skipSpace s = some r) (hr : r = c :: t) :
    ∃ k, s = List.replicate (k + 1) ' ' ++ r := by
  unfold skipSpace at h
  split at h
  · simp only [Option.some.injEq] at h
    rw [← h] at hr
    simp at hr
  · rename_i c0 t0
    split at h
    · simp at h
    · rename_i hc0
      have hc0 : c0 = ' ' := by simpa using hc0
      simp only [Option.some.injEq] at h
      subst hc0
      rw [List.dropWhile_cons_of_pos (by simp)] at h
      obtain ⟨k, hk⟩ := dropWhile_space t0
      refine ⟨k, ?_⟩
      rw [h] at hk
      rw [List.replicate_succ, List.cons_append, ← hk]

theorem fractional_nil (s : List Char) (h : (fractional s).2 = []) :
    (s = [] ∨ ∃ p ds, s = p :: ds ∧ (p = '.' ∨ p = ',') ∧ ds ≠ [] ∧
      ∀ c ∈ ds, isDigit c = true) ∧ (fractional s).1 = fracNanos s := by
  unfold fractional at h ⊢
  split at h
  · rename_i p d t
    split at h
    · rename_i hc
      simp only at h
      have hall : ∀ c ∈ d :: t, isDigit c = true := by
        intro c hcm
        by_contra hnd
        have := List.dropWhile_eq_nil_iff.1 h c hcm
        exact hnd this
      have htake : List.takeWhile isDigit (d :: t) = d :: t :=
        List.takeWhile_eq_self_iff.2 hall
      refine ⟨Or.inr ⟨p, d :: t, rfl, hc.1, by simp, hall⟩, ?_⟩
      simp only [hc, and_self, if_true, htake, fracNanos]
    · simp at h
  · rename_i hne
    simp only at h
    subst h
    exact ⟨Or.inl rfl, rfl⟩

theorem getYear_digits (a b c d : Char) (r : List Char) (ha : isDigit a = true)
    (hb : isDigit b = true) (hc : isDigit c = true) (hd : isDigit d = true) :
    getYear (a :: b :: c :: d :: r) = some (digitsVal [a, b, c, d], r) := by
  unfold getYear
  simp only [ha, hb, hc, hd, and_self, if_true, Option.some.injEq, Prod.mk.injEq, and_true]
  simp [digitsVal]
  ring

theorem getnum_fixed_digits (a b : Char) (r : List Char) (ha : isDigit a = true)
    (hb : isDigit b = true) :
    getnum (a :: b :: r) true = some (digitsVal [a, b], r) := by
  unfold getnum
  simp [ha, hb, digitsVal]

theorem getnum_free_digits (hour r : List Char)
    (hlen : hour.length = 1 ∨ hour.length = 2) (hd : ∀ c ∈ hour, isDigit c = true) :
    getnum (hour ++ ':' :: r) false = some (digitsVal hour, ':' :: r) := by
  have hcolon : isDigit ':' = false := by decide
  rcases hlen with h | h
  · obtain ⟨a, rfl⟩ := List.length_eq_one.1 h
    have ha : isDigit a = true := hd a (by simp)
    unfold getnum
    simp [ha, hcolon, digitsVal]
  · obtain ⟨a, b, rfl⟩ := List.length_eq_two.1 h
    have ha : isDigit a = true := hd a (by simp)
    have hb : isDigit b = true := hd b (by simp)
    unfold getnum
    simp [ha, hb, digitsVal]

theorem skipSpace_replicate (k : Nat) (c : Char) (t : List Char) (hc : c ≠ ' ') :
    skipSpace (List.replicate (k + 1) ' ' ++ c :: t) = some (c :: t) := by
  have hdrop : ∀ n : Nat,
      List.dropWhile (fun c => decide (c = ' ')) (List.replicate n ' ' ++ c :: t) = c :: t := by
    intro n
    induction n with
    | zero => simp [hc]
    | succ n ih => simpa [List.replicate_succ] using ih
  unfold skipSpace
  rw [List.replicate_succ, List.cons_append]
  simp only [ne_eq, not_true_eq_false, if_false]
  rw [← List.cons_append, ← List.replicate_succ, hdrop]

theorem fractional_form (frac : List Char)
    (h : frac = [] ∨ ∃ p ds, frac = p :: ds ∧ (p = '.' ∨ p = ',') ∧ ds ≠ [] ∧
      ∀ c ∈ ds, isDigit c = true) :
    fractional frac = (fracNanos frac, []) := by
  rcases h with h | ⟨p, ds, h, hp, hne, hall⟩
  · subst h; rfl
  · subst h
    cases ds with
    | nil => exact absurd rfl hne
    | cons d t =>
      have hd : isDigit d = true := hall d (by simp)
      have htake : List.takeWhile isDigit (d :: t) = d :: t :=
        List.takeWhile_eq_self_iff.2 hall
      have hdrop : List.dropWhile isDigit (d :: t) = [] :=
        List.dropWhile_eq_nil_iff.2 hall
      unfold fractional
      simp only [hp, hd, and_self, if_true, htake, hdrop, fracNanos]

theorem relaxed_parseLayout (cs : List Char) (loc : Location) (t : Time)
    (h : RelaxedLayout cs loc t) : parseLayout cs loc = some t := by
  obtain ⟨y1, y2, y3, y4, m1, m2, d1, d2, n1, n2, s1, s2, k, hour, frac, hcs, hdig, hlen,
    hhour, hfrac, ht, hvalid⟩ := h
  have hd : ∀ c, c ∈ [y1, y2, y3, y4, m1, m2, d1, d2, n1, n2, s1, s2] → isDigit c = true :=
    hdig
  obtain ⟨c0, t0, hc0⟩ : ∃ c0 t0, hour = c0 :: t0 := by
    cases hour with
    | nil => simp at hlen
    | cons c0 t0 => exact ⟨c0, t0, rfl⟩
  have hc0d : isDigit c0 = true := hhour c0 (by simp [hc0])
  have hc0s : c0 ≠ ' ' := by
    intro hsp
    rw [hsp] at hc0d
    exact absurd hc0d (by decide)
  subst ht
  unfold validFields at hvalid
  simp only at hvalid
  obtain ⟨hv1, hv2, hv3, hv4, hv5, hv6, hv7⟩ := hvalid
  have hy := getYear_digits y1 y2 y3 y4
    ('-' :: m1 :: m2 :: '-' :: d1 :: d2 ::
      (List.replicate (k + 1) ' ' ++ (hour ++ ':' :: n1 :: n2 :: ':' :: s1 :: s2 :: frac)))
    (hd y1 (by simp)) (hd y2 (by simp)) (hd y3 (by simp)) (hd y4 (by simp))
  have hm := getnum_fixed_digits m1 m2
    ('-' :: d1 :: d2 ::
      (List.replicate (k + 1) ' ' ++ (hour ++ ':' :: n1 :: n2 :: ':' :: s1 :: s2 :: frac)))
    (hd m1 (by simp)) (hd m2 (by simp))
  have hday := getnum_fixed_digits d1 d2
    (List.replicate (k + 1) ' ' ++ (hour ++ ':' :: n1 :: n2 :: ':' :: s1 :: s2 :: frac))
    (hd d1 (by simp)) (hd d2 (by simp))
  have hsp : skipSpace
      (List.replicate (k + 1) ' ' ++ (hour ++ ':' :: n1 :: n2 :: ':' :: s1 :: s2 :: frac)) =
      some (hour ++ ':' :: n1 :: n2 :: ':' :: s1 :: s2 :: frac) := by
    rw [hc0, List.cons_append]
    exact skipSpace_replicate k c0 _ hc0s
  have hh := getnum_free_digits hour (n1 :: n2 :: ':' :: s1 :: s2 :: frac) hlen hhour
  have hn := getnum_fixed_digits n1 n2 (':' :: s1 :: s2 :: frac)
    (hd n1 (by simp)) (hd n2 (by simp))
  have hs := getnum_fixed_digits s1 s2 frac (hd s1 (by simp)) (hd s2 (by simp))
  have hf := fractional_form frac hfrac
  have hdays := daysIn_eq (digitsVal [y1, y2, y3, y4]) (digitsVal [m1, m2]) hv1 hv2
  have hcs2 : cs = y1 :: y2 :: y3 :: y4 :: '-' :: m1 :: m2 :: '-' :: d1 :: d2 ::
      (List.replicate (k + 1) ' ' ++ (hour ++ ':' :: n1 :: n2 :: ':' :: s1 :: s2 :: frac)) := by
    rw [hcs]
    simp
  rw [hcs2]
  unfold parseLayout
  simp only [hy, skipChar, if_true, hm, hday, hsp, hh, hn, hs, hf, hdays]
  rw [if_neg (by omega), if_neg (by omega), if_neg (by omega), if_neg (by omega),
    if_neg (by simp), if_neg (by omega)]

theorem parseLayout_relaxed (cs : List Char) (loc : Location) (t : Time)
    (h : parseLayout cs loc = some t) : RelaxedLayout cs loc t := by
  unfold parseLayout at h
  cases h1 : getYear cs with
  | none => rw [h1] at h; simp at h
  | some p1 =>
  obtain ⟨year, v1⟩ := p1
  rw [h1] at h
  simp only at h
  cases h2 : skipChar '-' v1 with
  | none => rw [h2] at h; simp at h
  | some v2 =>
  rw [h2] at h
  simp only at h
  cases h3 : getnum v2 true with
  | none => rw [h3] at h; simp at h
  | some p3 =>
  obtain ⟨month, v3⟩ := p3
  rw [h3] at h
  simp only at h
  split at h
  · simp at h
  rename_i hmonth
  cases h4 : skipChar '-' v3 with
  | none => rw [h4] at h; simp at h
  | some v4 =>
  rw [h4] at h
  simp only at h
  cases h5 : getnum v4 true with
  | none => rw [h5] at h; simp at h
  | some p5 =>
  obtain ⟨day, v5⟩ := p5
  rw [h5] at h
  simp only at h
  cases h6 : skipSpace v5 with
  | none => rw [h6] at h; simp at h
  | some v6 =>
  rw [h6] at h
  simp only at h
  cases h7 : getnum v6 false with
  | none => rw [h7] at h; simp at h
  | some p7 =>
  obtain ⟨hr, v7⟩ := p7
  rw [h7] at h
  simp only at h
  split at h
  · simp at h
  rename_i hhr
  cases h8 : skipChar ':' v7 with
  | none => rw [h8] at h; simp at h
  | some v8 =>
  rw [h8] at h
  simp only at h
  cases h9 : getnum v8 true with
  | none => rw [h9] at h; simp at h
  | some p9 =>
  obtain ⟨mn, v9⟩ := p9
  rw [h9] at h
  simp only at h
  split at h
  · simp at h
  rename_i hmn
  cases h10 : skipChar ':' v9 with
  | none => rw [h10] at h; simp at h
  | some v10 =>
  rw [h10] at h
  simp only at h
  cases h11 : getnum v10 true with
  | none => rw [h11] at h; simp at h
  | some p11 =>
  obtain ⟨sc, v11⟩ := p11
  rw [h11] at h
  simp only at h
  split at h
  · simp at h
  rename_i hsc
  split at h
  · simp at h
  rename_i hfr
  split at h
  · simp at h
  rename_i hdy
  simp only [Option.some.injEq] at h
  -- the shape of the value, chunk by chunk
  obtain ⟨y1, y2, y3, y4, e1, dy1, dy2, dy3, dy4, ey⟩ := getYear_some cs v1 year h1
  have e2 := skipChar_some '-' v1 v2 h2
  obtain ⟨m1, m2, e3, dm1, dm2, em⟩ := getnum_fixed_some v2 v3 month h3
  have e4 := skipChar_some '-' v3 v4 h4
  obtain ⟨d1, d2, e5, dd1, dd2, ed⟩ := getnum_fixed_some v4 v5 day h5
  obtain ⟨hour, e7, hlen, hhour, eh⟩ := getnum_free_some v6 v7 hr h7
  have e8 := skipChar_some ':' v7 v8 h8
  obtain ⟨n1, n2, e9, dn1, dn2, en⟩ := getnum_fixed_some v8 v9 mn h9
  have e10 := skipChar_some ':' v9 v10 h10
  obtain ⟨s1, s2, e11, ds1, ds2, es⟩ := getnum_fixed_some v10 v11 sc h11
  obtain ⟨hfrac, hns⟩ := fractional_nil v11 (by simpa using hfr)
  obtain ⟨c0, t0, hc0⟩ : ∃ c0 t0, v6 = c0 :: t0 := by
    rw [e7]
    cases hour with
    | nil => simp at hlen
    | cons c0 t0 => exact ⟨c0, t0 ++ v7, rfl⟩
  obtain ⟨k, e6⟩ := skipSpace_some v5 v6 c0 t0 h6 hc0
  have hm1 : 1 ≤ month := by omega
  have hm12 : month ≤ 12 := by omega
  have hdays := daysIn_eq year month hm1 hm12
  refine ⟨y1, y2, y3, y4, m1, m2, d1, d2, n1, n2, s1, s2, k, hour, v11, ?_, ?_, hlen, hhour,
    hfrac, ?_, ?_⟩
  · rw [e1, e2, e3, e4, e5, e6, e7, e8, e9, e10, e11]
    simp
  · intro c hc
    simp only [List.mem_cons, List.mem_singleton, List.not_mem_nil, or_false] at hc
    rcases hc with h | h | h | h | h | h | h | h | h | h | h | h <;> rw [h] <;> assumption
  · rw [← h, ey, em, ed, eh, en, es, hns]
  · rw [← h]
    unfold validFields
    simp only
    rw [← hdays]
    omega

theorem strictLayout_relaxed (cs : List Char) (loc : Location) (t : Time)
    (h : strictLayout cs loc = some t) : RelaxedLayout cs loc t := by
  unfold strictLayout at h
  split at h
  · rename_i y1 y2 y3 y4 p1 m1 m2 p2 d1 d2 p3 h1 h2 p4 n1 n2 p5 s1 s2
    split at h
    · rename_i hc
      obtain ⟨e1, e2, e3, e4, e5, hall, hvalid⟩ := hc
      simp only [Option.some.injEq] at h
      subst e1 e2 e3 e4 e5
      have hd : ∀ c, c ∈ [y1, y2, y3, y4, m1, m2, d1, d2, h1, h2, n1, n2, s1, s2] →
          isDigit c = true := by
        intro c hc
        exact List.all_eq_true.1 hall c hc
      refine ⟨y1, y2, y3, y4, m1, m2, d1, d2, n1, n2, s1, s2, 0, [h1, h2], [], by simp, ?_,
        Or.inr rfl, ?_, Or.inl rfl, ?_, ?_⟩
      · intro c hc
        apply hd
        simp only [List.mem_cons, List.mem_singleton, List.not_mem_nil, or_false] at hc ⊢
        tauto
      · intro c hc
        apply hd
        simp only [List.mem_cons, List.mem_singleton, List.not_mem_nil, or_false] at hc ⊢
        tauto
      · rw [← h]
        rfl
      · rw [← h]
        exact hvalid
    · simp at h
  · simp at h

theorem GetField_of_sig (x : Struct) (dest : String) (ty : GoType)
    (h : fieldSig x dest = some (ty, true)) :
    ∃ d, GetField x dest = Res.ok ⟨ty, d⟩ := by
  unfold fieldSig at h
  unfold GetField
  cases hf : FieldByName x dest with
  | none => rw [hf] at h; simp at h
  | some f =>
    rw [hf] at h
    simp only [Option.map_some', Option.some.injEq, Prod.mk.injEq] at h
    exact ⟨f.data, by simp [h.1, h.2]⟩

theorem bindPair_time (r : Row) (x : Struct) (src dest v : String) (loc : Location)
    (hz : r.opts.TimeZone = some loc)
    (hv : mapIndex r.data src = some v)
    (hf : fieldSig x dest = some (timeType, true)) :
    bindPair r x src dest =
      match parseLayout v.data loc with
      | some t => (setData x dest (Data.time t), Ret.nil)
      | none => (x, Ret.err (Error.ParseError v)) := by
  have hk : GetFieldKind x dest = .ok Kind.Struct := GetFieldKind_of_sig x dest _ _ hf
  obtain ⟨d, hg⟩ := GetField_of_sig x dest timeType hf
  unfold bindPair
  simp only [hv, hk, hg, if_true, hz, ParseInLocation]
  cases hp : parseLayout v.data loc with
  | none => rfl
  | some t =>
    simp only
    rw [setFieldDropErr_ok x dest ⟨timeType, Data.time t⟩ hf]

/-- C6 (amended): for a destination whose mapped field is an exported field of type
`time.Time`, Bind with time zone UTC and the single pair succeeds on every source value that
matches the layout `YYYY-MM-DD hh:mm:ss` strictly, and more generally exactly on the values
of the relaxed layout (one space or more before the time, an hour of one or two digits, a
fractional second allowed after the seconds); it then sets the field to exactly the time the
value denotes in UTC. On every other value it returns a `*time.ParseError` and does not
write the field. -/
theorem Bind_time (r : Row) (x : Struct) (src dest v : String)
    (hz : r.opts.TimeZone = some UTC)
    (hv : mapIndex r.data src = some v)
    (hf : fieldSig x dest = some (timeType, true)) :
    (∀ t, strictLayout v.data UTC = some t →
      Bind r x [(src, dest)] = (setData x dest (Data.time t), Ret.nil)) ∧
    (∀ t, RelaxedLayout v.data UTC t →
      Bind r x [(src, dest)] = (setData x dest (Data.time t), Ret.nil) ∧
        fieldData (setData x dest (Data.time t)) dest = some (Data.time t)) ∧
    ((∀ t, ¬ RelaxedLayout v.data UTC t) →
      Bind r x [(src, dest)] = (x, Ret.err (Error.ParseError v))) := by
  have hpair := bindPair_time r x src dest v UTC hz hv hf
  have hok : ∀ t, RelaxedLayout v.data UTC t →
      Bind r x [(src, dest)] = (setData x dest (Data.time t), Ret.nil) := by
    intro t ht
    rw [relaxed_parseLayout v.data UTC t ht] at hpair
    rw [Bind_cons, hpair]
    simp [Bind]
  refine ⟨fun t ht => hok t (strictLayout_relaxed v.data UTC t ht), fun t ht => ⟨hok t ht, ?_⟩,
    ?_⟩
  · exact fieldData_setData_eq x dest _ (isSome_of_sig x dest _ hf)
  · intro hno
    cases hp : parseLayout v.data UTC with
    | some t => exact absurd (parseLayout_relaxed v.data UTC t hp) (hno t)
    | none =>
      rw [hp] at hpair
      rw [Bind_cons, hpair]
      simp

theorem Bind_time_witness :
    Bind (joinedRow "2024-01-15 09:30:00") person [("joined", "JoinedAt")] =
      (setData person "JoinedAt" (Data.time ⟨2024, 1, 15, 9, 30, 0, 0, UTC⟩), Ret.nil) :=
  (Bind_time (joinedRow "2024-01-15 09:30:00") person "joined" "JoinedAt"
    "2024-01-15 09:30:00" (by decide) (by decide) (by decide)).1
    ⟨2024, 1, 15, 9, 30, 0, 0, UTC⟩ (by decide)

/-- C6 fails as stated: the value `2024-01-15 09:30:00.5` does not match the layout
`YYYY-MM-DD hh:mm:ss`, yet Bind returns nil and writes the field, with half a second. -/
theorem Bind_time_fraction_counterexample :
    strictLayout "2024-01-15 09:30:00.5".data UTC = none ∧
      Bind (joinedRow "2024-01-15 09:30:00.5") person [("joined", "JoinedAt")] =
        (setData person "JoinedAt" (Data.time ⟨2024, 1, 15, 9, 30, 0, 500000000, UTC⟩),
          Ret.nil) := by
  decide

theorem ReadRow_of_read {σ : Type} (tok : Tokenizer σ) (b : Binder σ) (rec : List String)
    (h : (tok b.csv.Comma b.csv.r).1 = .ok rec) :
    ReadRow tok b = (.ok (rowOf b rec), withInput b (tok b.csv.Comma b.csv.r).2) := by
  unfold ReadRow Reader.Read
  rw [h]
  rfl

theorem ReadRow_of_error {σ : Type} (tok : Tokenizer σ) (b : Binder σ) (e : Error)
    (h : (tok b.csv.Comma b.csv.r).1 = .error e) :
    ReadRow tok b = (.error e, withInput b (tok b.csv.Comma b.csv.r).2) := by
  unfold ReadRow Reader.Read
  rw [h]
  rfl

theorem ForEach_turns {σ ν : Type} (tok : Tokenizer σ) (f : Visitor ν) (fuel : Nat) :
    ∀ (recs : List (List String)) (b : Binder σ) (s0 : ν) (s1 : σ),
      readsRecords tok b.csv.Comma recs b.csv.r s1 →
      goesOn f s0 (recs.map (rowOf b)) →
      ForEach tok f (recs.length + fuel) b s0 =
        ForEach tok f fuel (withInput b s1) (visited f s0 (recs.map (rowOf b))) := by
  intro recs
  induction recs with
  | nil =>
    intro b s0 s1 hr _
    simp only [readsRecords] at hr
    simp only [List.length_nil, Nat.zero_add, List.map_nil, visited, List.foldl_nil]
    rw [← hr]
    rfl
  | cons rec rest ih =>
    intro b s0 s1 hr hg
    simp only [readsRecords] at hr
    simp only [List.map_cons, goesOn] at hg
    have hfuel : (rec :: rest).length + fuel = (rest.length + fuel) + 1 := by
      simp only [List.length_cons]; omega
    rw [hfuel, ForEach, ReadRow_of_read tok b rec hr.1]
    simp only
    rcases hf : f s0 (rowOf b rec) with ⟨⟨hasNext, err⟩, s2⟩
    rw [hf] at hg
    simp only [Prod.mk.injEq] at hg
    obtain ⟨⟨h1, h2⟩, hg2⟩ := hg
    subst h1 h2
    simp only [Bool.not_eq_true, Bool.true_eq_false, if_false]
    have := ih (withInput b (tok b.csv.Comma b.csv.r).2) s2 s1 hr.2 hg2
    rw [this]
    simp only [List.map_cons, visited, List.foldl_cons, hf]
    rfl

theorem goesOn_of_always {ν : Type} (f : Visitor ν)
    (h : ∀ s row, (f s row).1 = (true, none)) :
    ∀ (rows : List Row) (s : ν), goesOn f s rows := by
  intro rows
  induction rows with
  | nil => intro s; trivial
  | cons row rest ih => intro s; exact ⟨h s row, ih _⟩

theorem visited_recorder :
    ∀ (rows s : List Row), visited recorder s rows = s ++ rows := by
  intro rows
  induction rows with
  | nil => intro s; simp [visited]
  | cons row rest ih =>
    intro s
    have := ih (s ++ [row])
    simp only [visited, List.foldl_cons] at this ⊢
    rw [show (recorder s row).2 = s ++ [row] from rfl, this]
    simp

/-- C11: over a stream of the records `recs` followed by end-of-input, with a visitor that
always returns `true, nil`, ForEach terminates (from `recs.length + 1` turns of fuel on it
has returned) and returns nil; the visitor has been called on the Rows that ReadRow builds
from the records, once each and in stream order: its state is the one these calls, and no
others, leave, and the visitor that keeps a log of its calls ends with exactly these Rows in
its log. The input is one read past the last record. -/
theorem ForEach_visits_all {σ ν : Type} (tok : Tokenizer σ) (f : Visitor ν) (b : Binder σ)
    (recs : List (List String)) (s0 : ν) (s1 : σ)
    (hrecs : readsRecords tok b.csv.Comma recs b.csv.r s1)
    (heof : (tok b.csv.Comma s1).1 = .error Error.EOF)
    (hf : ∀ s row, (f s row).1 = (true, none)) (fuel : Nat) :
    ForEach tok f (recs.length + (fuel + 1)) b s0 =
        some (none, withInput b (tok b.csv.Comma s1).2,
          visited f s0 (recs.map (rowOf b))) ∧
      ForEach tok recorder (recs.length + (fuel + 1)) b [] =
        some (none, withInput b (tok b.csv.Comma s1).2, recs.map (rowOf b)) := by
  have key : ∀ {μ : Type} (g : Visitor μ) (t0 : μ), (∀ s row, (g s row).1 = (true, none)) →
      ForEach tok g (recs.length + (fuel + 1)) b t0 =
        some (none, withInput b (tok b.csv.Comma s1).2,
          visited g t0 (recs.map (rowOf b))) := by
    intro μ g t0 hg
    rw [ForEach_turns tok g (fuel + 1) recs b t0 s1 hrecs (goesOn_of_always g hg _ _),
      ForEach, ReadRow_of_error tok (withInput b s1) Error.EOF heof]
    simp only [if_true]
    rfl
  refine ⟨key f s0 hf, ?_⟩
  rw [key recorder [] (fun _ _ => rfl), visited_recorder]
  rfl

theorem ForEach_visits_all_witness :
    ForEach listTok recorder ([["7", "alice"], ["8", "bob"]].length + (0 + 1))
          (withInput binderIdName [["7", "alice"], ["8", "bob"]]) [] =
        some (none,
          withInput (withInput binderIdName [["7", "alice"], ["8", "bob"]])
            (listTok (withInput binderIdName [["7", "alice"], ["8", "bob"]]).csv.Comma []).2,
          visited recorder []
            ([["7", "alice"], ["8", "bob"]].map
              (rowOf (withInput binderIdName [["7", "alice"], ["8", "bob"]])))) ∧
      ForEach listTok recorder ([["7", "alice"], ["8", "bob"]].length + (0 + 1))
          (withInput binderIdName [["7", "alice"], ["8", "bob"]]) [] =
        some (none,
          withInput (withInput binderIdName [["7", "alice"], ["8", "bob"]])
            (listTok (withInput binderIdName [["7", "alice"], ["8", "bob"]]).csv.Comma []).2,
          [["7", "alice"], ["8", "bob"]].map
            (rowOf (withInput binderIdName [["7", "alice"], ["8", "bob"]]))) :=
  ForEach_visits_all listTok recorder (withInput binderIdName [["7", "alice"], ["8", "bob"]])
    [["7", "alice"], ["8", "bob"]] [] [] ⟨rfl, rfl, rfl⟩ rfl (fun _ _ => rfl) 0

/-- C12: ForEach stops at the first stopping event. After the reads of the records `recs`,
on whose Rows the visitor goes on (state `visited ..` then, input `s1`): a read that fails
with an error other than end-of-input makes ForEach return that error, the visitor not being
called for it (its state is unchanged); a visitor call that returns an error makes ForEach
return it; a visitor call that returns `false, nil` makes ForEach return nil. In each case
the input is exactly one read past `s1` and the state of the visitor is the one that its
last call left: no read and no call follows. -/
theorem ForEach_stops {σ ν : Type} (tok : Tokenizer σ) (f : Visitor ν) (b : Binder σ)
    (recs : List (List String)) (s0 : ν) (s1 : σ) (fuel : Nat)
    (hrecs : readsRecords tok b.csv.Comma recs b.csv.r s1)
    (hgo : goesOn f s0 (recs.map (rowOf b))) :
    (∀ e, (tok b.csv.Comma s1).1 = .error e → e ≠ Error.EOF →
      ForEach tok f (recs.length + (fuel + 1)) b s0 =
        some (some e, withInput b (tok b.csv.Comma s1).2,
          visited f s0 (recs.map (rowOf b)))) ∧
    (∀ rec hasNext e s2, (tok b.csv.Comma s1).1 = .ok rec →
      f (visited f s0 (recs.map (rowOf b))) (rowOf b rec) = ((hasNext, some e), s2) →
      ForEach tok f (recs.length + (fuel + 1)) b s0 =
        some (some e, withInput b (tok b.csv.Comma s1).2, s2)) ∧
    (∀ rec s2, (tok b.csv.Comma s1).1 = .ok rec →
      f (visited f s0 (recs.map (rowOf b))) (rowOf b rec) = ((false, none), s2) →
      ForEach tok f (recs.length + (fuel + 1)) b s0 =
        some (none, withInput b (tok b.csv.Comma s1).2, s2)) := by
  have hpre := ForEach_turns tok f (fuel + 1) recs b s0 s1 hrecs hgo
  refine ⟨?_, ?_, ?_⟩
  · intro e he hne
    rw [hpre, ForEach, ReadRow_of_error tok (withInput b s1) e he]
    simp only [if_neg hne]
    rfl
  · intro rec hasNext e s2 hrec hcall
    rw [hpre, ForEach, ReadRow_of_read tok (withInput b s1) rec hrec]
    have : rowOf (withInput b s1) rec = rowOf b rec := rfl
    simp only [this, hcall]
    rfl
  · intro rec s2 hrec hcall
    rw [hpre, ForEach, ReadRow_of_read tok (withInput b s1) rec hrec]
    have : rowOf (withInput b s1) rec = rowOf b rec := rfl
    simp only [this, hcall]
    simp only [Bool.false_eq_true, not_false_eq_true, if_true]
    rfl

theorem ForEach_stops_witness :
    ForEach listTok stopAtSecond ([["7", "alice"]].length + (0 + 1))
        (withInput binderIdName [["7", "alice"], ["8", "bob"], ["9", "carol"]]) 0 =
      some (none,
        withInput (withInput binderIdName [["7", "alice"], ["8", "bob"], ["9", "carol"]])
          (listTok (withInput binderIdName
            [["7", "alice"], ["8", "bob"], ["9", "carol"]]).csv.Comma
            [["8", "bob"], ["9", "carol"]]).2, 2) :=
  (ForEach_stops listTok stopAtSecond
    (withInput binderIdName [["7", "alice"], ["8", "bob"], ["9", "carol"]])
    [["7", "alice"]] 0 [["8", "bob"], ["9", "carol"]] 0 ⟨rfl, rfl⟩ ⟨rfl, trivial⟩).2.2
    ["8", "bob"] 2 rfl rfl

theorem keptValue_last (m : GoMap Int String) (nm : String) (k : String) :
    ∀ (rest : List String) (i0 : Nat) (i : Nat) (h : i < rest.length),
      metaName m ((i0 + i : Nat) : Int) = k → rest[i] ≠ "" → rest[i] ≠ nm →
      (∀ j (hj : j < rest.length), i < j → metaName m ((i0 + j : Nat) : Int) = k →
        rest[j] = "" ∨ rest[j] = nm) →
      keptValue m nm i0 rest k = some rest[i] := by
  intro rest
  induction rest with
  | nil => intro i0 i h; simp at h
  | cons v rest ih =>
    intro i0 i h hname h1 h2 hlater
    rw [keptValue]
    cases i with
    | zero =>
      cases hk : keptValue m nm (i0 + 1) rest k with
      | some w =>
        obtain ⟨j, hj, hn, hw, hw1, hw2⟩ := keptValue_some _ _ _ _ _ _ hk
        have hidx : i0 + 1 + j = i0 + (j + 1) := by omega
        rw [hidx] at hn
        have := hlater (j + 1) (by simp; omega) (by omega) hn
        simp only [List.getElem_cons_succ] at this
        rw [hw] at this
        rcases this with h | h
        · exact absurd h hw1
        · exact absurd h hw2
      | none =>
        simp only [List.getElem_cons_zero] at h1 h2 ⊢
        have hname0 : metaName m (i0 : Int) = k := by simpa using hname
        rw [if_pos ⟨h1, h2, hname0⟩]
    | succ i =>
      simp only [List.getElem_cons_succ] at h1 h2 ⊢
      have hidx : i0 + (i + 1) = i0 + 1 + i := by omega
      rw [hidx] at hname
      have := ih (i0 + 1) i (by simpa using h) hname h1 h2 (by
        intro j hj hij hn
        have hidx2 : i0 + 1 + j = i0 + (j + 1) := by omega
        rw [hidx2] at hn
        have := hlater (j + 1) (by simp; omega) (by omega) hn
        simpa using this)
      rw [this]

/-- C20: whatever names the metadata gives, also the same name to several columns, the Row
that ReadRow returns maps a name `k` to the raw value of the column of highest index that
has the name `k` and a value neither empty nor equal to the null-marker, and it omits `k`
when there is no such column. -/
theorem ReadRow_last_column_wins {σ : Type} (tok : Tokenizer σ) (b : Binder σ)
    (record : List String) (k : String)
    (hread : (tok b.csv.Comma b.csv.r).1 = .ok record) :
    ∃ row, (ReadRow tok b).1 = .ok row ∧
      (∀ i (h : i < record.length), metaName b.meta (i : Int) = k →
        record[i] ≠ "" → record[i] ≠ b.opts.NullMarker →
        (∀ j (hj : j < record.length), i < j → metaName b.meta (j : Int) = k →
          record[j] = "" ∨ record[j] = b.opts.NullMarker) →
        mapIndex row.data k = some record[i]) ∧
      ((∀ i (h : i < record.length), metaName b.meta (i : Int) = k →
          record[i] = "" ∨ record[i] = b.opts.NullMarker) →
        mapIndex row.data k = none) := by
  refine ⟨_, ReadRow_ok tok b record hread, ?_, ?_⟩
  · intro i h hname h1 h2 hlater
    simp only
    rw [readRowLoop_index,
      keptValue_last b.meta b.opts.NullMarker k record 0 i h (by simpa using hname) h1 h2
        (by intro j hj hij hn; exact hlater j hj hij (by simpa using hn))]
  · intro hnone
    simp only
    rw [readRowLoop_index]
    cases hk : keptValue b.meta b.opts.NullMarker 0 record k with
    | some w =>
      obtain ⟨j, hj, hn, hw, hw1, hw2⟩ := keptValue_some _ _ _ _ _ _ hk
      have := hnone j hj (by simpa using hn)
      rw [hw] at this
      rcases this with h | h
      · exact absurd h hw1
      · exact absurd h hw2
    | none => rfl

theorem ReadRow_last_column_wins_witness :
    ∃ row, (ReadRow listTok binderDup).1 = .ok row ∧
      (∀ i (h : i < ["a", "b"].length), metaName binderDup.meta (i : Int) = "x" →
        ["a", "b"][i] ≠ "" → ["a", "b"][i] ≠ binderDup.opts.NullMarker →
        (∀ j (hj : j < ["a", "b"].length), i < j → metaName binderDup.meta (j : Int) = "x" →
          ["a", "b"][j] = "" ∨ ["a", "b"][j] = binderDup.opts.NullMarker) →
        mapIndex row.data "x" = some ["a", "b"][i]) ∧
      ((∀ i (h : i < ["a", "b"].length), metaName binderDup.meta (i : Int) = "x" →
          ["a", "b"][i] = "" ∨ ["a", "b"][i] = binderDup.opts.NullMarker) →
        mapIndex row.data "x" = none) :=
  ReadRow_last_column_wins listTok binderDup ["a", "b"] "x" rfl

/-- C13 (amended): every key of the Row that ReadRow returns is a column name of the
metadata of the Binder or the empty string, which is the name ReadRow takes for a column
whose index the metadata lacks. When every column index of the record is a key of the
metadata, as for a record with no more fields than an auto-derived header, every key of the
Row is a column name of the metadata. -/
theorem ReadRow_keys {σ : Type} (tok : Tokenizer σ) (b : Binder σ) (record : List String)
    (hread : (tok b.csv.Comma b.csv.r).1 = .ok record) :
    ∃ row, (ReadRow tok b).1 = .ok row ∧
      (∀ k v, mapIndex row.data k = some v →
        (∃ i : Int, mapIndex b.meta i = some k) ∨ k = "") ∧
      ((∀ i, i < record.length → (mapIndex b.meta (i : Int)).isSome = true) →
        ∀ k v, mapIndex row.data k = some v → ∃ i : Int, mapIndex b.meta i = some k) := by
  have key : ∀ k v, mapIndex (readRowLoop b.meta b.opts.NullMarker 0 record []) k = some v →
      ∃ j, j < record.length ∧ metaName b.meta (j : Int) = k := by
    intro k v hv
    rw [readRowLoop_index] at hv
    cases hk : keptValue b.meta b.opts.NullMarker 0 record k with
    | some w =>
      obtain ⟨j, hj, hn, _⟩ := keptValue_some _ _ _ _ _ _ hk
      exact ⟨j, hj, by simpa using hn⟩
    | none =>
      rw [hk] at hv
      simp [mapIndex] at hv
  refine ⟨_, ReadRow_ok tok b record hread, ?_, ?_⟩
  · intro k v hv
    obtain ⟨j, _, hn⟩ := key k v hv
    unfold metaName at hn
    cases hm : mapIndex b.meta (j : Int) with
    | none =>
      rw [hm] at hn
      exact Or.inr hn.symm
    | some name =>
      rw [hm] at hn
      exact Or.inl ⟨j, by rw [hm]; exact congrArg some hn⟩
  · intro hall k v hv
    obtain ⟨j, hj, hn⟩ := key k v hv
    unfold metaName at hn
    have := hall j hj
    cases hm : mapIndex b.meta (j : Int) with
    | none => rw [hm] at this; simp at this
    | some name =>
      rw [hm] at hn
      exact ⟨j, by rw [hm]; exact congrArg some hn⟩

theorem ReadRow_keys_witness :
    ∃ row, (ReadRow listTok binderIdName).1 = .ok row ∧
      (∀ k v, mapIndex row.data k = some v →
        (∃ i : Int, mapIndex binderIdName.meta i = some k) ∨ k = "") ∧
      ((∀ i, i < ["7", "alice"].length →
          (mapIndex binderIdName.meta (i : Int)).isSome = true) →
        ∀ k v, mapIndex row.data k = some v →
          ∃ i : Int, mapIndex binderIdName.meta i = some k) :=
  ReadRow_keys listTok binderIdName ["7", "alice"] rfl

/-- C13 fails as stated: NewBinder with the explicit header `0: id` returns a Binder, and
for the record `7, x`, which has one field more than the metadata has entries, ReadRow
returns a Row with the key `""` (for `x`), which is no column name of the metadata. -/
theorem ReadRow_extra_field_counterexample :
    NewBinder listTok [["7", "x"]] (some idHeaderOptions) = .ok binderIdOnly ∧
      (ReadRow listTok binderIdOnly).1 = .ok ⟨[("", "x"), ("id", "7")], binderIdOnly.opts⟩ ∧
      mapIndex [("", "x"), ("id", "7")] "" = some "x" ∧
      "" ∉ binderIdOnly.meta.map Prod.snd := by
  decide

/-- C17: the defaulting of the options in NewBinder, read off any Binder it returns. With
options given, a separator that is unset (zero) becomes the comma and one that is set is
kept, and the tokenizer works with that separator; an unset time zone becomes UTC and one
that is set is kept; the null-marker and the header are as given. With nil options the
Binder holds zero-valued options but for the time zone UTC: the separator stays zero, and
the tokenizer keeps the comma that `csv.NewReader` gave it. -/
theorem NewBinder_defaults {σ : Type} (tok : Tokenizer σ) (reader : σ)
    (opts : Option Options) (b : Binder σ) (hb : NewBinder tok reader opts = .ok b) :
    (∀ o, opts = some o →
      b.opts.Separator = (if o.Separator = 0 then 44 else o.Separator) ∧
      b.csv.Comma = b.opts.Separator ∧
      b.opts.TimeZone = some (o.TimeZone.getD UTC) ∧
      b.opts.NullMarker = o.NullMarker ∧ b.opts.Header = o.Header) ∧
    (opts = none →
      b.opts.Separator = 0 ∧ b.csv.Comma = (NewReader reader).Comma ∧
      b.opts.TimeZone = some UTC ∧ b.opts.NullMarker = "" ∧ b.opts.Header = none) := by
  by_cases hH : headerLen (headerOf opts) = 0
  · have hnb := NewBinder_auto tok reader opts hH
    rw [hb] at hnb
    rcases htok : tok (separatorOf opts) reader with ⟨res, s1⟩
    rw [htok] at hnb
    cases res with
    | error e => simp at hnb
    | ok header =>
      simp only at hnb
      split at hnb
      · simp at hnb
      · simp only [Except.ok.injEq] at hnb
        subst hnb
        constructor
        · intro o ho
          subst ho
          simp [separatorOf, headerOf]
        · intro ho
          subst ho
          simp [separatorOf, headerOf, NewReader]
  · cases opts with
    | none => exact absurd rfl hH
    | some o =>
      cases hhead : o.Header with
      | none =>
        simp only [headerOf, hhead] at hH
        exact absurd rfl hH
      | some H =>
        have hne : H ≠ [] := by
          intro h
          subst h
          simp only [headerOf, hhead] at hH
          exact hH rfl
        have hnb := NewBinder_explicit tok reader o H hhead hne
        rw [hb] at hnb
        simp only [Except.ok.injEq] at hnb
        subst hnb
        constructor
        · intro o1 ho
          simp only [Option.some.injEq] at ho
          subst ho
          simp [separatorOf, hhead]
        · intro ho
          simp at ho

theorem NewBinder_defaults_witness :
    (∀ o, some nullOptions = some o →
      binderNull.opts.Separator = (if o.Separator = 0 then 44 else o.Separator) ∧
      binderNull.csv.Comma = binderNull.opts.Separator ∧
      binderNull.opts.TimeZone = some (o.TimeZone.getD UTC) ∧
      binderNull.opts.NullMarker = o.NullMarker ∧ binderNull.opts.Header = o.Header) ∧
    (some nullOptions = none →
      binderNull.opts.Separator = 0 ∧
      binderNull.csv.Comma = (NewReader twoRecords).Comma ∧
      binderNull.opts.TimeZone = some UTC ∧ binderNull.opts.NullMarker = "" ∧
      binderNull.opts.Header = none) :=
  NewBinder_defaults listTok twoRecords (some nullOptions) binderNull (by decide)

theorem bindPair_ret_congr (r : Row) (x x1 : Struct) (src dest : String)
    (h : fieldSig x1 dest = fieldSig x dest) :
    (bindPair r x1 src dest).2 = (bindPair r x src dest).2 := by
  unfold fieldSig at h
  unfold bindPair GetFieldKind GetField
  cases hv : mapIndex r.data src with
  | none => rfl
  | some v =>
    cases h1 : FieldByName x1 dest with
    | none =>
      cases h2 : FieldByName x dest with
      | none => rfl
      | some f => rw [h1, h2] at h; simp at h
    | some f1 =>
      cases h2 : FieldByName x dest with
      | none => rw [h1, h2] at h; simp at h
      | some f =>
        rw [h1, h2] at h
        simp only [Option.map_some', Option.some.injEq, Prod.mk.injEq] at h
        obtain ⟨n1, t1, dt1, e1⟩ := f1
        obtain ⟨n, ⟨tn, tk⟩, dt, e⟩ := f
        simp only at h
        obtain ⟨ht, he⟩ := h
        subst ht he
        cases e1 <;> cases tk <;> first
          | rfl
          | (simp only [if_true, Bool.false_eq_true, if_false]
             (repeat' split) <;> rfl)

theorem setData_comm (x : Struct) (a b : String) (d1 d2 : Data) (hab : a ≠ b) :
    setData (setData x a d1) b d2 = setData (setData x b d2) a d1 := by
  induction x with
  | nil => rfl
  | cons f rest ih =>
    by_cases ha : f.name = a
    · have hb : ¬ f.name = b := fun h => hab (ha.symm.trans h)
      simp [setData, ha, hb, hab]
    · by_cases hb : f.name = b
      · have hba : ¬ b = a := fun h => hab h.symm
        simp [setData, ha, hb, hba]
      · simp [setData, ha, hb, ih]

theorem applyWrite_comm (x : Struct) (a b : String) (w1 w2 : Option Data) (hab : a ≠ b) :
    applyWrite (applyWrite x a w1) b w2 = applyWrite (applyWrite x b w2) a w1 := by
  cases w1 <;> cases w2 <;> simp only [applyWrite]
  exact setData_comm x a b _ _ hab

theorem fieldSig_applyWrite (x : Struct) (dest : String) (w : Option Data) (n : String) :
    fieldSig (applyWrite x dest w) n = fieldSig x n := by
  cases w with
  | none => rfl
  | some d => exact fieldSig_setData x dest n d

theorem bindPair_fst (r : Row) (x : Struct) (src dest : String) :
    (bindPair r x src dest).1 = applyWrite x dest (pairWrite r (fieldSig x dest) src) := by
  unfold bindPair pairWrite fieldSig GetFieldKind GetField setFieldDropErr SetField
  cases hv : mapIndex r.data src with
  | none => rfl
  | some v =>
    cases hf : FieldByName x dest with
    | none => rfl
    | some f =>
      obtain ⟨fname, ftyp, fdata, fexp⟩ := f
      obtain ⟨tname, tkind⟩ := ftyp
      simp only [Option.map_some', hf]
      cases fexp <;> cases tkind <;>
        simp [applyWrite, stringType, int64Type, timeType, hf] <;>
        (repeat' split) <;> simp_all [applyWrite]

theorem Bind_ret_of_nil (r : Row) (x : Struct) (src dest : String)
    (rest : List (String × String)) (h : (Bind r x ((src, dest) :: rest)).2 = Ret.nil) :
    (bindPair r x src dest).2 = Ret.nil ∧
      Bind r x ((src, dest) :: rest) = Bind r (bindPair r x src dest).1 rest := by
  rw [Bind_cons] at h ⊢
  by_cases hp : (bindPair r x src dest).2 = Ret.nil
  · exact ⟨hp, by rw [if_pos hp]⟩
  · rw [if_neg hp] at h
    exact absurd h hp

theorem Bind_ret_nil_iff (r : Row) :
    ∀ (l : List (String × String)) (x : Struct),
      (Bind r x l).2 = Ret.nil ↔ ∀ p ∈ l, (bindPair r x p.1 p.2).2 = Ret.nil := by
  intro l
  induction l with
  | nil => intro x; simp [Bind]
  | cons p rest ih =>
    intro x
    obtain ⟨src, dest⟩ := p
    have hcongr : ∀ q : String × String,
        (bindPair r (bindPair r x src dest).1 q.1 q.2).2 = (bindPair r x q.1 q.2).2 :=
      fun q => bindPair_ret_congr r x _ q.1 q.2 (fieldSig_bindPair r x src dest q.2)
    constructor
    · intro h
      obtain ⟨h1, h2⟩ := Bind_ret_of_nil r x src dest rest h
      rw [h2] at h
      intro q hq
      rcases List.mem_cons.1 hq with hq | hq
      · rw [hq]; exact h1
      · rw [← hcongr q]
        exact (ih _).1 h q hq
    · intro h
      have h1 := h (src, dest) (by simp)
      rw [Bind_cons, if_pos h1]
      apply (ih _).2
      intro q hq
      rw [hcongr q]
      exact h q (by simp [hq])

theorem bindPair_comm (r : Row) (x : Struct) (s1 d1 s2 d2 : String) (hd : d1 ≠ d2) :
    (bindPair r (bindPair r x s1 d1).1 s2 d2).1 =
      (bindPair r (bindPair r x s2 d2).1 s1 d1).1 := by
  rw [bindPair_fst r (bindPair r x s1 d1).1, bindPair_fst r (bindPair r x s2 d2).1,
    fieldSig_bindPair, fieldSig_bindPair, bindPair_fst r x s1 d1, bindPair_fst r x s2 d2]
  exact applyWrite_comm x d1 d2 _ _ hd

theorem Bind_perm (r : Row) (l l1 : List (String × String)) (hperm : l.Perm l1) :
    ∀ x : Struct, (l.map Prod.snd).Nodup → (Bind r x l).2 = Ret.nil →
      Bind r x l1 = Bind r x l := by
  induction hperm with
  | nil => intro x _ _; rfl
  | cons p _ ih =>
    intro x hnd hnil
    obtain ⟨src, dest⟩ := p
    simp only [List.map_cons, List.nodup_cons] at hnd
    obtain ⟨h1, h2⟩ := Bind_ret_of_nil r x src dest _ hnil
    rw [h2] at hnil
    rw [h2, Bind_cons, if_pos h1]
    exact ih _ hnd.2 hnil
  | swap p q l =>
    intro x hnd hnil
    obtain ⟨s1, d1⟩ := p
    obtain ⟨s2, d2⟩ := q
    simp only [List.map_cons, List.nodup_cons, List.mem_cons, not_or] at hnd
    have hall := (Bind_ret_nil_iff r _ x).1 hnil
    have hq : (bindPair r x s2 d2).2 = Ret.nil := hall (s2, d2) (by simp)
    have hp : (bindPair r x s1 d1).2 = Ret.nil := hall (s1, d1) (by simp)
    have hp2 : (bindPair r (bindPair r x s2 d2).1 s1 d1).2 = Ret.nil := by
      rw [bindPair_ret_congr r x _ s1 d1 (fieldSig_bindPair r x s2 d2 d1)]; exact hp
    have hq2 : (bindPair r (bindPair r x s1 d1).1 s2 d2).2 = Ret.nil := by
      rw [bindPair_ret_congr r x _ s2 d2 (fieldSig_bindPair r x s1 d1 d2)]; exact hq
    rw [Bind_cons, if_pos hp, Bind_cons, if_pos hq2, Bind_cons, if_pos hq, Bind_cons,
      if_pos hp2, bindPair_comm r x s1 d1 s2 d2 (fun h => hnd.1.1 h.symm)]
  | trans h12 _ ih1 ih2 =>
    intro x hnd hnil
    have e1 := ih1 x hnd hnil
    have hnd2 := (List.Perm.nodup_iff (List.Perm.map Prod.snd h12)).1 hnd
    rw [ih2 x hnd2 (by rw [e1]; exact hnil), e1]

/-- C14 (amended): for every row, destination and mapping, whether Bind returns success
(nil) is the same for every order in which the pairs of the mapping are processed; and when
it returns success and the destination field names of the mapping are pairwise distinct, the
final contents of the destination are the same for every order too. -/
theorem Bind_order (r : Row) (x : Struct) (l l1 : List (String × String))
    (hperm : l.Perm l1) :
    ((Bind r x l).2 = Ret.nil ↔ (Bind r x l1).2 = Ret.nil) ∧
      ((l.map Prod.snd).Nodup → (Bind r x l).2 = Ret.nil → Bind r x l1 = Bind r x l) := by
  refine ⟨?_, Bind_perm r l l1 hperm x⟩
  rw [Bind_ret_nil_iff, Bind_ret_nil_iff]
  constructor
  · intro h p hp
    exact h p (hperm.mem_iff.2 hp)
  · intro h p hp
    exact h p (hperm.mem_iff.1 hp)

theorem Bind_order_witness :
    ((Bind (joinedRow "2024-01-15 09:30:00") person
          [("joined", "JoinedAt"), ("name", "Name")]).2 = Ret.nil ↔
        (Bind (joinedRow "2024-01-15 09:30:00") person
          [("name", "Name"), ("joined", "JoinedAt")]).2 = Ret.nil) ∧
      (([("joined", "JoinedAt"), ("name", "Name")].map Prod.snd).Nodup →
        (Bind (joinedRow "2024-01-15 09:30:00") person
          [("joined", "JoinedAt"), ("name", "Name")]).2 = Ret.nil →
        Bind (joinedRow "2024-01-15 09:30:00") person
            [("name", "Name"), ("joined", "JoinedAt")] =
          Bind (joinedRow "2024-01-15 09:30:00") person
            [("joined", "JoinedAt"), ("name", "Name")]) :=
  Bind_order (joinedRow "2024-01-15 09:30:00") person
    [("joined", "JoinedAt"), ("name", "Name")] [("name", "Name"), ("joined", "JoinedAt")]
    (List.Perm.swap _ _ _)

/-- C14 fails as stated: with the name `alice` and the age `abc`, Bind over the pair of the
name and then the pair of the age returns the parse error with `Name` written, and over the
same pairs in the other order returns it with nothing written. -/
theorem Bind_order_counterexample :
    Bind aliceRow person [("name", "Name"), ("age", "Age")] =
        (setData person "Name" (Data.str "alice"),
          Ret.err (Error.NumError "abc" NumErr.ErrSyntax)) ∧
      Bind aliceRow person [("age", "Age"), ("name", "Name")] =
        (person, Ret.err (Error.NumError "abc" NumErr.ErrSyntax)) ∧
      setData person "Name" (Data.str "alice") ≠ person := by
  decide

theorem digitVal_le (c : Char) (h : isDigit c = true) : digitVal c ≤ 9 := by
  unfold isDigit at h
  unfold digitVal
  have h0 : '0'.toNat = 48 := by decide
  have h9 : '9'.toNat = 57 := by decide
  simp only [decide_eq_true_eq] at h
  omega

theorem foldl_digits_ge (l : List Char) :
    ∀ a : Nat, a ≤ l.foldl (fun n c => n * 10 + digitVal c) a := by
  induction l with
  | nil => intro a; exact Nat.le_refl a
  | cons c rest ih =>
    intro a
    simp only [List.foldl_cons]
    have := ih (a * 10 + digitVal c)
    omega

theorem parseUintLoop_digits :
    ∀ (l : List Char) (a : Nat), (∀ c ∈ l, isDigit c = true) → a ≤ maxVal →
      parseUintLoop l a =
        if l.foldl (fun n c => n * 10 + digitVal c) a ≤ maxVal then
          .ok (l.foldl (fun n c => n * 10 + digitVal c) a)
        else .error NumErr.ErrRange := by
  intro l
  induction l with
  | nil =>
    intro a _ ha
    simp only [parseUintLoop, List.foldl_nil, if_pos ha]
  | cons c rest ih =>
    intro a hd ha
    have hmax : maxVal = 2 ^ 64 - 1 := rfl
    have hc : isDigit c = true := hd c (by simp)
    have hc9 := digitVal_le c hc
    have hge := foldl_digits_ge rest (a * 10 + digitVal c)
    rw [parseUintLoop]
    simp only [hc, not_true_eq_false, if_false, List.foldl_cons]
    by_cases hcut : a ≥ maxVal / 10 + 1
    · rw [if_pos hcut, if_neg (by omega)]
    · rw [if_neg hcut]
      by_cases hfit : a * 10 + digitVal c ≤ maxVal
      · have hmod : (a * 10 + digitVal c) % 2 ^ 64 = a * 10 + digitVal c :=
          Nat.mod_eq_of_lt (by omega)
        simp only [hmod]
        rw [if_neg (by omega)]
        exact ih _ (fun d hdm => hd d (by simp [hdm])) hfit
      · have hmod : (a * 10 + digitVal c) % 2 ^ 64 = a * 10 + digitVal c - 2 ^ 64 := by
          rw [Nat.mod_eq_sub_mod (by omega)]
          exact Nat.mod_eq_of_lt (by omega)
        simp only [hmod]
        rw [if_pos (by omega), if_neg (by omega)]

theorem ParseUint_ok_iff (l : List Char) (n : Nat) :
    ParseUint l = .ok n ↔
      l ≠ [] ∧ (∀ c ∈ l, isDigit c = true) ∧ digitsVal l = n ∧ n ≤ maxVal := by
  unfold ParseUint digitsVal
  by_cases hl : l = []
  · simp [hl]
  · rw [if_neg hl]
    by_cases hd : ∀ c ∈ l, isDigit c = true
    · rw [parseUintLoop_digits l 0 hd (Nat.zero_le _)]
      by_cases hfit : l.foldl (fun n c => n * 10 + digitVal c) 0 ≤ maxVal
      · rw [if_pos hfit]
        constructor
        · intro h
          simp only [Except.ok.injEq] at h
          exact ⟨hl, hd, h, h ▸ hfit⟩
        · intro h
          rw [h.2.2.1]
      · rw [if_neg hfit]
        constructor
        · intro h; simp at h
        · intro h
          exact absurd (h.2.2.1 ▸ h.2.2.2) hfit
    · have hall : l.all isDigit = false := by
        rw [Bool.eq_false_iff]
        intro h
        exact hd (fun c hc => List.all_eq_true.1 h c hc)
      obtain ⟨e, he⟩ := parseUintLoop_not_digits l 0 hall
      rw [he]
      constructor
      · intro h; simp at h
      · intro h; exact absurd h.2.1 hd

theorem ParseInt_of_ParseUint_ok (s : String) (hs : s ≠ "") (neg : Bool) (ds : List Char)
    (hnd : (match s.data with
      | '+' :: t => (false, t)
      | '-' :: t => (true, t)
      | cs => (false, cs)) = (neg, ds))
    (m : Nat) (hm : ParseUint ds = .ok m) :
    ParseInt s =
      if (neg = false ∧ m ≥ 2 ^ 63) ∨ (neg = true ∧ m > 2 ^ 63) then
        .error (Error.NumError s NumErr.ErrRange)
      else .ok (if neg then -(m : Int) else (m : Int)) := by
  unfold ParseInt
  rw [if_neg hs]
  simp only [hnd, hm]
  cases neg
  · simp only [Bool.false_eq_true, not_false_eq_true, true_and, false_and, if_false, or_false]
  · simp only [not_true_eq_false, false_and, if_false, true_and, if_true, Bool.true_eq_false,
      false_or]

theorem ParseInt_ok_core (s : String) (hs : s ≠ "") (neg : Bool) (ds : List Char)
    (hnd : (match s.data with
      | '+' :: t => (false, t)
      | '-' :: t => (true, t)
      | cs => (false, cs)) = (neg, ds))
    (hb : isBase10Int s = (!ds.isEmpty && ds.all isDigit))
    (hval : base10Value s = if neg then -(digitsVal ds : Int) else (digitsVal ds : Int))
    (n : Int) :
    ParseInt s = .ok n ↔ isInt64Text s ∧ n = base10Value s := by
  have hmax : maxVal = 2 ^ 64 - 1 := rfl
  unfold isInt64Text
  rw [hb, hval]
  cases hp : ParseUint ds with
  | error e =>
    obtain ⟨e1, he1⟩ := ParseInt_of_ParseUint_error s hs neg ds hnd e hp
    rw [he1]
    constructor
    · intro h; simp at h
    · rintro ⟨⟨hb1, hlo, hhi⟩, _⟩
      exfalso
      simp only [Bool.and_eq_true, Bool.not_eq_true', List.isEmpty_eq_false,
        List.all_eq_true] at hb1
      have hne : ds ≠ [] := by
        intro h
        rw [h] at hb1
        simp at hb1
      have hfit : digitsVal ds ≤ maxVal := by
        cases neg
        · simp only [Bool.false_eq_true, if_false] at hhi
          have : (digitsVal ds : Int) < 2 ^ 63 := hhi
          omega
        · simp only [if_true] at hlo
          have : -2 ^ 63 ≤ -(digitsVal ds : Int) := hlo
          omega
      have := (ParseUint_ok_iff ds (digitsVal ds)).2 ⟨hne, hb1.2, rfl, hfit⟩
      rw [hp] at this
      simp at this
  | ok m =>
    obtain ⟨hne, hd, hv, hfit⟩ := (ParseUint_ok_iff ds m).1 hp
    have hb1 : (!ds.isEmpty && ds.all isDigit) = true := by
      simp only [Bool.and_eq_true, Bool.not_eq_true', List.isEmpty_eq_false, List.all_eq_true]
      exact ⟨hne, hd⟩
    rw [ParseInt_of_ParseUint_ok s hs neg ds hnd m hp, hv, hb1]
    cases neg
    · simp only [true_and, Bool.false_eq_true, false_and, or_false, if_false]
      by_cases hr : m ≥ 2 ^ 63
      · rw [if_pos hr]
        constructor
        · intro h; simp at h
        · rintro ⟨⟨_, hhi⟩, _⟩
          have : (m : Int) < 2 ^ 63 := hhi
          omega
      · rw [if_neg hr]
        constructor
        · intro h
          simp only [Except.ok.injEq] at h
          refine ⟨⟨?_, ?_⟩, h.symm⟩ <;> omega
        · rintro ⟨_, h⟩
          rw [h]
    · simp only [Bool.true_eq_false, false_and, true_and, false_or, if_true]
      by_cases hr : m > 2 ^ 63
      · rw [if_pos hr]
        constructor
        · intro h; simp at h
        · rintro ⟨⟨hlo, _⟩, _⟩
          have : -2 ^ 63 ≤ -(m : Int) := hlo
          omega
      · rw [if_neg hr]
        constructor
        · intro h
          simp only [Except.ok.injEq] at h
          refine ⟨⟨?_, ?_⟩, h.symm⟩ <;> omega
        · rintro ⟨_, h⟩
          rw [h]

theorem ParseInt_ok_iff (s : String) (n : Int) :
    ParseInt s = .ok n ↔ isInt64Text s ∧ n = base10Value s := by
  by_cases hs : s = ""
  · subst hs
    have h1 : ParseInt "" = .error (Error.NumError "" NumErr.ErrSyntax) := by decide
    have h2 : ¬ isInt64Text "" := by decide
    rw [h1]
    constructor
    · intro h; simp at h
    · rintro ⟨h, _⟩; exact absurd h h2
  · cases hdata : s.data with
    | nil =>
      exfalso
      apply hs
      cases s with
      | mk cs => simp only at hdata; subst hdata; rfl
    | cons c t =>
      by_cases hplus : c = '+'
      · subst hplus
        exact ParseInt_ok_core s hs false t (by rw [hdata]; rfl) (by
          unfold isBase10Int; rw [hdata]; rfl) (by unfold base10Value; rw [hdata]; rfl) n
      · by_cases hminus : c = '-'
        · subst hminus
          exact ParseInt_ok_core s hs true t (by rw [hdata]; rfl) (by
            unfold isBase10Int; rw [hdata]; rfl) (by unfold base10Value; rw [hdata]; rfl) n
        · have hm : (match c :: t with
              | '+' :: t => (false, t)
              | '-' :: t => (true, t)
              | cs => (false, cs)) = (false, c :: t) := by
            split
            · rename_i t1 heq
              simp only [List.cons.injEq] at heq
              exact absurd heq.1 hplus
            · rename_i t1 heq
              simp only [List.cons.injEq] at heq
              exact absurd heq.1 hminus
            · rfl
          exact ParseInt_ok_core s hs false (c :: t) (by rw [hdata]; exact hm) (by
            unfold isBase10Int
            rw [hdata]
            split
            · rename_i t1 heq
              simp only [List.cons.injEq] at heq
              exact absurd heq.1 hplus
            · rename_i t1 heq
              simp only [List.cons.injEq] at heq
              exact absurd heq.1 hminus
            · rfl) (by
            unfold base10Value
            rw [hdata]
            split
            · rename_i t1 heq
              simp only [List.cons.injEq] at heq
              exact absurd heq.1 hplus
            · rename_i t1 heq
              simp only [List.cons.injEq] at heq
              exact absurd heq.1 hminus
            · rfl) n

theorem bindPair_snd (r : Row) (x : Struct) (src dest : String) :
    (bindPair r x src dest).2 = pairRet r (fieldSig x dest) src dest := by
  unfold bindPair pairRet fieldSig GetFieldKind GetField
  cases hv : mapIndex r.data src with
  | none => rfl
  | some v =>
    cases hf : FieldByName x dest with
    | none => rfl
    | some f =>
      obtain ⟨fname, ftyp, fdata, fexp⟩ := f
      obtain ⟨tname, tkind⟩ := ftyp
      simp only [Option.map_some']
      cases fexp <;> cases tkind <;>
        simp only [reduceCtorEq, if_true, if_false, Bool.false_eq_true] <;>
        (repeat' split) <;> rfl

theorem pairRet_nil_iff (r : Row) (x : Struct) (src dest : String) :
    pairRet r (fieldSig x dest) src dest = Ret.nil ↔ pairOK r x src dest := by
  unfold pairRet pairOK
  cases hv : mapIndex r.data src with
  | none => simp
  | some v =>
    simp only [Option.some.injEq, forall_eq']
    cases hsig : fieldSig x dest with
    | none => simp
    | some p =>
      obtain ⟨t, e⟩ := p
      simp only [Option.some.injEq, Prod.mk.injEq]
      by_cases hs : t.kind = Kind.String
      · rw [if_pos hs]
        simp only [true_iff]
        exact ⟨t, e, ⟨rfl, rfl⟩, fun h => absurd (hs.symm.trans h) (by decide),
          fun h => absurd (hs.symm.trans h) (by decide)⟩
      · rw [if_neg hs]
        by_cases hi : t.kind = Kind.Int64
        · rw [if_pos hi]
          constructor
          · intro h
            refine ⟨t, e, ⟨rfl, rfl⟩, fun _ => ?_,
              fun h2 => absurd (hi.symm.trans h2) (by decide)⟩
            cases hp : ParseInt v with
            | error err => rw [hp] at h; simp at h
            | ok n => exact ((ParseInt_ok_iff v n).1 hp).1
          · rintro ⟨t1, e1, ⟨ht, he⟩, h1, _⟩
            subst ht he
            have := (ParseInt_ok_iff v (base10Value v)).2 ⟨h1 hi, rfl⟩
            rw [this]
        · rw [if_neg hi]
          by_cases hst : t.kind = Kind.Struct
          · rw [if_pos hst]
            by_cases he : e = false
            · rw [if_pos he]
              constructor
              · intro h; simp at h
              · rintro ⟨t1, e1, ⟨ht, he1⟩, _, h2⟩
                subst ht he1
                have := (h2 hst).1
                rw [he] at this
                simp at this
            · rw [if_neg he]
              have hetrue : e = true := by simpa using he
              by_cases htm : t = timeType
              · rw [if_pos htm]
                unfold ParseInLocation
                constructor
                · intro h
                  refine ⟨t, e, ⟨rfl, rfl⟩, fun h2 => absurd h2 hi, fun _ => ⟨hetrue, fun _ => ?_⟩⟩
                  cases hz : r.opts.TimeZone with
                  | none =>
                    rw [hz] at h
                    simp only at h
                    cases hp : parseLayout v.data UTC <;> rw [hp] at h <;> simp at h
                  | some loc =>
                    rw [hz] at h
                    simp only at h
                    cases hp : parseLayout v.data loc with
                    | none => rw [hp] at h; simp at h
                    | some tm => exact ⟨loc, tm, rfl, parseLayout_relaxed v.data loc tm hp⟩
                · rintro ⟨t1, e1, ⟨ht, he1⟩, _, h2⟩
                  subst ht he1
                  obtain ⟨loc, tm, hz, hrel⟩ := (h2 hst).2 htm
                  rw [hz]
                  simp only
                  rw [relaxed_parseLayout v.data loc tm hrel]
              · rw [if_neg htm]
                simp only [true_iff]
                exact ⟨t, e, ⟨rfl, rfl⟩, fun h2 => absurd h2 hi,
                  fun _ => ⟨hetrue, fun h3 => absurd h3 htm⟩⟩
          · rw [if_neg hst]
            simp only [true_iff]
            exact ⟨t, e, ⟨rfl, rfl⟩, fun h2 => absurd h2 hi, fun h2 => absurd h2 hst⟩

theorem pairRet_panic (r : Row) (sig : Option (GoType × Bool)) (src dest msg : String)
    (h : pairRet r sig src dest = Ret.panic msg) :
    ((mapIndex r.data src).isSome = true ∧ ∃ t, sig = some (t, false) ∧ t.kind = Kind.Struct) ∨
      r.opts.TimeZone = none := by
  unfold pairRet at h
  cases hv : mapIndex r.data src with
  | none => rw [hv] at h; simp at h
  | some v =>
    rw [hv] at h
    simp only at h
    cases sig with
    | none => simp at h
    | some p =>
      obtain ⟨t, e⟩ := p
      simp only at h
      split at h
      · simp at h
      · split at h
        · split at h <;> simp at h
        · split at h
          · rename_i hst
            split at h
            · rename_i he
              exact Or.inl ⟨rfl, t, by rw [he], hst⟩
            · split at h
              · cases hz : r.opts.TimeZone with
                | none => exact Or.inr rfl
                | some loc =>
                  rw [hz] at h
                  unfold ParseInLocation at h
                  simp only at h
                  cases hp : parseLayout v.data loc <;> rw [hp] at h <;> simp at h
              · simp at h
          · simp at h

theorem Bind_ret_mem (r : Row) :
    ∀ (l : List (String × String)) (x : Struct),
      (Bind r x l).2 = Ret.nil ∨ ∃ p ∈ l, (Bind r x l).2 = (bindPair r x p.1 p.2).2 := by
  intro l
  induction l with
  | nil => intro x; exact Or.inl rfl
  | cons p rest ih =>
    intro x
    obtain ⟨src, dest⟩ := p
    rw [Bind_cons]
    by_cases h : (bindPair r x src dest).2 = Ret.nil
    · rw [if_pos h]
      rcases ih (bindPair r x src dest).1 with h1 | ⟨q, hq, h1⟩
      · exact Or.inl h1
      · refine Or.inr ⟨q, by simp [hq], ?_⟩
        rw [h1]
        exact bindPair_ret_congr r x _ q.1 q.2 (fieldSig_bindPair r x src dest q.2)
    · rw [if_neg h]
      exact Or.inr ⟨(src, dest), by simp, rfl⟩

/-- C15 (amended): when the mapping contains a pair whose source column is in the row and
whose destination is not a field of the destination, Bind never returns success. It returns
an error, provided that no pair with a source in the row targets a struct-kind field that is
not exported and that the time zone of the row is set; failing that, Bind may panic
instead. -/
theorem Bind_missing_field (r : Row) (x : Struct) (l : List (String × String))
    (src dest v : String) (hmem : (src, dest) ∈ l)
    (hv : mapIndex r.data src = some v) (hno : fieldSig x dest = none) :
    (Bind r x l).2 ≠ Ret.nil ∧
      ((∀ p ∈ l, (mapIndex r.data p.1).isSome = true →
          ∀ t, fieldSig x p.2 = some (t, false) → t.kind ≠ Kind.Struct) →
        r.opts.TimeZone ≠ none → ∃ e, (Bind r x l).2 = Ret.err e) := by
  have hbad : (bindPair r x src dest).2 ≠ Ret.nil := by
    rw [bindPair_snd, hno]
    unfold pairRet
    rw [hv]
    simp
  have hne : (Bind r x l).2 ≠ Ret.nil := by
    intro h
    exact hbad ((Bind_ret_nil_iff r l x).1 h (src, dest) hmem)
  refine ⟨hne, ?_⟩
  intro hexp hz
  rcases Bind_ret_mem r l x with h | ⟨p, hp, h⟩
  · exact absurd h hne
  · cases hret : (Bind r x l).2 with
    | nil => exact absurd hret hne
    | err e => exact ⟨e, rfl⟩
    | panic msg =>
      exfalso
      rw [hret, bindPair_snd] at h
      rcases pairRet_panic r _ p.1 p.2 msg h.symm with ⟨hsome, t, ht, hk⟩ | hnone
      · exact hexp p hp hsome t ht hk
      · exact hz hnone

theorem Bind_missing_field_witness :
    (Bind ⟨[("id", "7"), ("name", "alice")], utcOptions⟩ person
        [("id", "ID"), ("name", "Nope")]).2 ≠ Ret.nil ∧
      ((∀ p ∈ [("id", "ID"), ("name", "Nope")],
          (mapIndex (⟨[("id", "7"), ("name", "alice")], utcOptions⟩ : Row).data p.1).isSome =
            true →
          ∀ t, fieldSig person p.2 = some (t, false) → t.kind ≠ Kind.Struct) →
        (⟨[("id", "7"), ("name", "alice")], utcOptions⟩ : Row).opts.TimeZone ≠ none →
        ∃ e, (Bind ⟨[("id", "7"), ("name", "alice")], utcOptions⟩ person
          [("id", "ID"), ("name", "Nope")]).2 = Ret.err e) :=
  Bind_missing_field ⟨[("id", "7"), ("name", "alice")], utcOptions⟩ person
    [("id", "ID"), ("name", "Nope")] "name" "Nope" "alice" (by decide) (by decide) (by decide)

/-- C15 fails as stated: the pair `a, Nope` has its source in the row and `Nope` is no field
of the destination, yet Bind does not return an error: the pair `t, when` processed before
it targets the field `when time.Time`, which is not exported, and `GetField` panics. -/
theorem Bind_missing_field_counterexample :
    mapIndex [("t", "2024-01-15 09:30:00"), ("a", "1")] "a" = some "1" ∧
      fieldSig hidden "Nope" = none ∧
      Bind ⟨[("t", "2024-01-15 09:30:00"), ("a", "1")], utcOptions⟩ hidden
          [("t", "when"), ("a", "Nope")] =
        (hidden, Ret.panic
          "reflect.Value.Interface: cannot return value obtained from unexported field or method") := by
  decide

theorem pairWrite_none_of_type (r : Row) (t : GoType) (e : Bool) (src : String)
    (h1 : t ≠ stringType) (h2 : t ≠ int64Type) (h3 : t ≠ timeType) :
    pairWrite r (some (t, e)) src = none := by
  unfold pairWrite
  cases mapIndex r.data src with
  | none => rfl
  | some v => cases e <;> simp [h1, h2, h3]

/-- C16 (amended): for a destination field whose kind is not String and not Int64 and that,
if its kind is Struct, is exported and not of type `time.Time` (this covers the integer
kinds other than Int64 and the composite fields that hold no date/time), Bind with a single
pair that targets the field returns success and leaves the whole destination unchanged,
whatever the source value is. -/
theorem Bind_unrecognised (r : Row) (x : Struct) (src dest : String) (t : GoType) (e : Bool)
    (hf : fieldSig x dest = some (t, e))
    (hs : t.kind ≠ Kind.String) (hi : t.kind ≠ Kind.Int64)
    (hc : t.kind = Kind.Struct → t ≠ timeType ∧ e = true) :
    Bind r x [(src, dest)] = (x, Ret.nil) := by
  have h1 : t ≠ stringType := fun h => hs (by rw [h]; rfl)
  have h2 : t ≠ int64Type := fun h => hi (by rw [h]; rfl)
  have h3 : t ≠ timeType := by
    intro h
    exact (hc (by rw [h]; rfl)).1 h
  have hfst : (bindPair r x src dest).1 = x := by
    rw [bindPair_fst, hf, pairWrite_none_of_type r t e src h1 h2 h3]
    rfl
  have hsnd : (bindPair r x src dest).2 = Ret.nil := by
    rw [bindPair_snd, hf]
    unfold pairRet
    cases mapIndex r.data src with
    | none => rfl
    | some v =>
      simp only [if_neg hs, if_neg hi]
      by_cases hst : t.kind = Kind.Struct
      · have he : ¬ e = false := by
          rw [(hc hst).2]; simp
        rw [if_pos hst, if_neg he, if_neg h3]
      · rw [if_neg hst]
  rw [Bind_cons, if_pos hsnd, hfst]
  rfl

theorem Bind_unrecognised_witness :
    Bind ⟨[("n", "5")], utcOptions⟩ others [("n", "Count")] = (others, Ret.nil) :=
  Bind_unrecognised ⟨[("n", "5")], utcOptions⟩ others "n" "Count" ⟨"int", Kind.Int⟩ true
    (by decide) (by decide) (by decide) (by decide)

/-- C16 fails as stated: the field `cfg` is a composite field (kind Struct) that holds no
date/time, yet Bind with the single pair that targets it does not return success: the field
is not exported and `GetField` panics. -/
theorem Bind_unrecognised_counterexample :
    GetFieldKind hidden "cfg" = .ok Kind.Struct ∧
      fieldSig hidden "cfg" ≠ some (timeType, false) ∧
      Bind ⟨[("c", "1")], utcOptions⟩ hidden [("c", "cfg")] =
        (hidden, Ret.panic
          "reflect.Value.Interface: cannot return value obtained from unexported field or method") := by
  decide

/-- C18 (amended): Bind returns success if and only if every pair whose source column is in
the row (a) names a field of the destination, (b) carries, when that field is of kind Int64,
the base-10 text of a 64-bit signed integer, (c) targets, when that field is of kind Struct,
an exported field, and (d) carries, when that field is of type `time.Time`, a value of the
relaxed date layout, the time zone of the row being set. Consequently whether Bind succeeds
does not depend on the order in which the pairs are processed. -/
theorem Bind_success_iff (r : Row) (x : Struct) (l : List (String × String)) :
    ((Bind r x l).2 = Ret.nil ↔ ∀ p ∈ l, pairOK r x p.1 p.2) ∧
      ∀ l1, l.Perm l1 → ((Bind r x l).2 = Ret.nil ↔ (Bind r x l1).2 = Ret.nil) := by
  have key : ∀ l2 : List (String × String),
      (Bind r x l2).2 = Ret.nil ↔ ∀ p ∈ l2, pairOK r x p.1 p.2 := by
    intro l2
    rw [Bind_ret_nil_iff]
    constructor
    · intro h p hp
      rw [← pairRet_nil_iff, ← bindPair_snd]
      exact h p hp
    · intro h p hp
      rw [bindPair_snd, pairRet_nil_iff]
      exact h p hp
  refine ⟨key l, ?_⟩
  intro l1 hperm
  rw [key l, key l1]
  constructor
  · intro h p hp
    exact h p (hperm.mem_iff.2 hp)
  · intro h p hp
    exact h p (hperm.mem_iff.1 hp)

/-- C18 fails as stated: the only pair targets the date/time field `JoinedAt` with the value
`2024-01-15 09:30:00.5`, which does not match the date layout, and Bind returns success. -/
theorem Bind_success_iff_counterexample :
    fieldSig person "JoinedAt" = some (timeType, true) ∧
      strictLayout "2024-01-15 09:30:00.5".data UTC = none ∧
      (Bind (joinedRow "2024-01-15 09:30:00.5") person [("joined", "JoinedAt")]).2 =
        Ret.nil := by
  decide

theorem fieldData_applyWrite (x x1 : Struct) (dest : String) (w : Option Data)
    (hsig : fieldSig x1 dest = fieldSig x dest)
    (hdata : w = none → fieldData x1 dest = fieldData x dest)
    (hsome : w ≠ none → (FieldByName x dest).isSome = true) :
    fieldData (applyWrite x1 dest w) dest = fieldData (applyWrite x dest w) dest := by
  cases w with
  | none => exact hdata rfl
  | some d =>
    have hx := hsome (by simp)
    have hx1 : (FieldByName x1 dest).isSome = true := by
      unfold fieldSig at hsig
      cases h1 : FieldByName x1 dest with
      | none =>
        rw [h1] at hsig
        cases h2 : FieldByName x dest with
        | none => rw [h2] at hx; simp at hx
        | some f => rw [h2] at hsig; simp at hsig
      | some f => rfl
    simp only [applyWrite]
    rw [fieldData_setData_eq x1 dest d hx1, fieldData_setData_eq x dest d hx]

theorem pairWrite_some_sig (r : Row) (sig : Option (GoType × Bool)) (src : String)
    (h : pairWrite r sig src ≠ none) : sig.isSome = true := by
  unfold pairWrite at h
  cases sig with
  | none =>
    exfalso
    apply h
    cases mapIndex r.data src <;> rfl
  | some p => rfl

theorem Bind_fieldData (r : Row) :
    ∀ (l : List (String × String)) (x : Struct),
      (l.map Prod.snd).Nodup → (Bind r x l).2 = Ret.nil →
      ∀ p ∈ l, fieldData (Bind r x l).1 p.2 =
        fieldData (applyWrite x p.2 (pairWrite r (fieldSig x p.2) p.1)) p.2 := by
  intro l
  induction l with
  | nil => intro x _ _ p hp; simp at hp
  | cons q rest ih =>
    intro x hnd hnil p hp
    obtain ⟨src, dest⟩ := q
    simp only [List.map_cons, List.nodup_cons] at hnd
    obtain ⟨h1, h2⟩ := Bind_ret_of_nil r x src dest rest hnil
    rw [h2] at hnil ⊢
    rcases List.mem_cons.1 hp with hp | hp
    · subst hp
      simp only
      rw [fieldData_Bind_other r dest rest _ hnd.1, bindPair_fst]
    · have hne : p.2 ≠ dest := by
        intro h
        apply hnd.1
        rw [← h]
        exact List.mem_map_of_mem Prod.snd hp
      rw [ih _ hnd.2 hnil p hp, fieldSig_bindPair]
      apply fieldData_applyWrite
      · exact fieldSig_bindPair r x src dest p.2
      · intro _
        exact fieldData_bindPair_ne r x src dest p.2 hne
      · intro hw
        have := pairWrite_some_sig r _ p.1 hw
        unfold fieldSig at this
        cases hf : FieldByName x p.2 with
        | none => rw [hf] at this; simp at this
        | some f => rfl

theorem Bind_fieldData_unchanged (r : Row) (n : String) :
    ∀ (l : List (String × String)) (x : Struct),
      (∀ p ∈ l, p.2 = n → pairWrite r (fieldSig x n) p.1 = none) →
      fieldData (Bind r x l).1 n = fieldData x n := by
  intro l
  induction l with
  | nil => intro x _; rfl
  | cons q rest ih =>
    intro x h
    obtain ⟨src, dest⟩ := q
    have hstep : fieldData (bindPair r x src dest).1 n = fieldData x n := by
      by_cases hd : n = dest
      · subst hd
        rw [bindPair_fst, h (src, n) (by simp) rfl]
        rfl
      · exact fieldData_bindPair_ne r x src dest n hd
    rw [Bind_cons]
    split
    · rw [ih _ (by
        intro p hp hpn
        rw [fieldSig_bindPair]
        exact h p (by simp [hp]) hpn), hstep]
    · exact hstep

/-- C19 (amended): for a mapping whose destination field names are pairwise distinct, if
Bind returns success then the final destination is the same whatever the order of the pairs
is: each mapped field that is exported and of type exactly `string`, `int64` or `time.Time`
and whose source column is in the row holds the converted value of that column (the raw
string, the integer the text denotes, the time the value denotes in the time zone of the
row), and every field that no such pair targets is unchanged. -/
theorem Bind_final (r : Row) (x : Struct) (l : List (String × String))
    (hnd : (l.map Prod.snd).Nodup) (hnil : (Bind r x l).2 = Ret.nil) :
    (∀ p ∈ l, ∀ v, mapIndex r.data p.1 = some v →
      (fieldSig x p.2 = some (stringType, true) →
        fieldData (Bind r x l).1 p.2 = some (Data.str v)) ∧
      (fieldSig x p.2 = some (int64Type, true) →
        isInt64Text v ∧ fieldData (Bind r x l).1 p.2 = some (Data.int (base10Value v))) ∧
      (fieldSig x p.2 = some (timeType, true) →
        ∃ loc tm, r.opts.TimeZone = some loc ∧ RelaxedLayout v.data loc tm ∧
          fieldData (Bind r x l).1 p.2 = some (Data.time tm))) ∧
    (∀ n, (∀ p ∈ l, p.2 = n → mapIndex r.data p.1 = none ∨
        (fieldSig x n ≠ some (stringType, true) ∧ fieldSig x n ≠ some (int64Type, true) ∧
          fieldSig x n ≠ some (timeType, true))) →
      fieldData (Bind r x l).1 n = fieldData x n) ∧
    (∀ l1, l.Perm l1 → Bind r x l1 = Bind r x l) := by
  refine ⟨?_, ?_, fun l1 hperm => Bind_perm r l l1 hperm x hnd hnil⟩
  · intro p hp v hv
    have hdata := Bind_fieldData r l x hnd hnil p hp
    have hok : pairOK r x p.1 p.2 := by
      rw [← pairRet_nil_iff, ← bindPair_snd]
      exact (Bind_ret_nil_iff r l x).1 hnil p hp
    obtain ⟨t, e, hsig, hint, hstruct⟩ := hok v hv
    refine ⟨?_, ?_, ?_⟩
    · intro hs
      rw [hdata, hs]
      have hw : pairWrite r (some (stringType, true)) p.1 = some (Data.str v) := by
        unfold pairWrite
        rw [hv]
        simp
      rw [hw]
      exact fieldData_setData_eq x p.2 _ (isSome_of_sig x p.2 _ hs)
    · intro hs
      rw [hs] at hsig
      simp only [Option.some.injEq, Prod.mk.injEq] at hsig
      have htext : isInt64Text v := hint (by rw [← hsig.1]; rfl)
      have hparse := (ParseInt_ok_iff v (base10Value v)).2 ⟨htext, rfl⟩
      refine ⟨htext, ?_⟩
      rw [hdata, hs]
      have hw : pairWrite r (some (int64Type, true)) p.1 =
          some (Data.int (base10Value v)) := by
        unfold pairWrite
        rw [hv]
        simp only [hparse]
        rw [if_neg (by decide)]
        simp
      rw [hw]
      exact fieldData_setData_eq x p.2 _ (isSome_of_sig x p.2 _ hs)
    · intro hs
      rw [hs] at hsig
      simp only [Option.some.injEq, Prod.mk.injEq] at hsig
      obtain ⟨loc, tm, hz, hrel⟩ :=
        (hstruct (by rw [← hsig.1]; rfl)).2 hsig.1.symm
      refine ⟨loc, tm, hz, hrel, ?_⟩
      rw [hdata, hs]
      have hw : pairWrite r (some (timeType, true)) p.1 = some (Data.time tm) := by
        unfold pairWrite ParseInLocation
        rw [hv, hz]
        simp only [relaxed_parseLayout v.data loc tm hrel]
        rw [if_neg (by decide), if_neg (by decide)]
        simp
      rw [hw]
      exact fieldData_setData_eq x p.2 _ (isSome_of_sig x p.2 _ hs)
  · intro n hn
    apply Bind_fieldData_unchanged
    intro p hp hpn
    rcases hn p hp hpn with h | ⟨h1, h2, h3⟩
    · unfold pairWrite
      rw [h]
    · cases hsig : fieldSig x n with
      | none =>
        unfold pairWrite
        cases mapIndex r.data p.1 <;> rfl
      | some q =>
        obtain ⟨t, e⟩ := q
        rw [hsig] at h1 h2 h3
        cases e with
        | false =>
          unfold pairWrite
          cases mapIndex r.data p.1 <;> rfl
        | true =>
          apply pairWrite_none_of_type
          · intro h; exact h1 (by rw [h])
          · intro h; exact h2 (by rw [h])
          · intro h; exact h3 (by rw [h])

theorem Bind_final_witness :
    (∀ p ∈ [("id", "ID"), ("age", "Age")], ∀ v,
      mapIndex (⟨[("id", "7"), ("age", "42")], utcOptions⟩ : Row).data p.1 = some v →
      (fieldSig person p.2 = some (stringType, true) →
        fieldData (Bind ⟨[("id", "7"), ("age", "42")], utcOptions⟩ person
          [("id", "ID"), ("age", "Age")]).1 p.2 = some (Data.str v)) ∧
      (fieldSig person p.2 = some (int64Type, true) →
        isInt64Text v ∧
          fieldData (Bind ⟨[("id", "7"), ("age", "42")], utcOptions⟩ person
            [("id", "ID"), ("age", "Age")]).1 p.2 = some (Data.int (base10Value v))) ∧
      (fieldSig person p.2 = some (timeType, true) →
        ∃ loc tm, (⟨[("id", "7"), ("age", "42")], utcOptions⟩ : Row).opts.TimeZone =
            some loc ∧ RelaxedLayout v.data loc tm ∧
          fieldData (Bind ⟨[("id", "7"), ("age", "42")], utcOptions⟩ person
            [("id", "ID"), ("age", "Age")]).1 p.2 = some (Data.time tm))) ∧
    (∀ n, (∀ p ∈ [("id", "ID"), ("age", "Age")], p.2 = n →
        mapIndex (⟨[("id", "7"), ("age", "42")], utcOptions⟩ : Row).data p.1 = none ∨
        (fieldSig person n ≠ some (stringType, true) ∧
          fieldSig person n ≠ some (int64Type, true) ∧
          fieldSig person n ≠ some (timeType, true))) →
      fieldData (Bind ⟨[("id", "7"), ("age", "42")], utcOptions⟩ person
        [("id", "ID"), ("age", "Age")]).1 n = fieldData person n) ∧
    (∀ l1, [("id", "ID"), ("age", "Age")].Perm l1 →
      Bind ⟨[("id", "7"), ("age", "42")], utcOptions⟩ person l1 =
        Bind ⟨[("id", "7"), ("age", "42")], utcOptions⟩ person
          [("id", "ID"), ("age", "Age")]) :=
  Bind_final ⟨[("id", "7"), ("age", "42")], utcOptions⟩ person [("id", "ID"), ("age", "Age")]
    (by decide) (by decide)

/-- C19 fails as stated: the mapping has one pair, its source is in the row, Bind returns
success, and the mapped field `ID` is of the recognised kind String; yet it does not hold
the raw string `7` but is unchanged, its type being the named string type `Code`. -/
theorem Bind_final_counterexample :
    GetFieldKind withCode "ID" = .ok Kind.String ∧
      mapIndex [("id", "7")] "id" = some "7" ∧
      Bind ⟨[("id", "7")], utcOptions⟩ withCode [("id", "ID")] = (withCode, Ret.nil) ∧
      fieldData withCode "ID" = some (Data.str "") := by
  decide

end Csvb
